import Mathlib

/-!
Verification of the bulk metadata ingestion pipeline (nebula-nexus).

Shallow embedding of the pipeline's core operations:
* the calendar-window planner `build_month_ranges` of `ingest_arxiv_monthly.py`,
* the per-month pagination loop `process_month` of `ingest_arxiv_monthly.py`,
* the retry delay computation `RetryConfig.get_delay` of `src/utils/retry.py`,
* the date-format fallback of `bulk_ingest_papers.store_papers` and
  `airflow/dags/pubmed_ingestion/fetching.run_paper_ingestion_pipeline`,
* `PaperRepository.upsert` of `src/repositories/paper.py`,
* the dedup/store loop `BulkPaperIngestion.store_papers` / `run_ingestion` of
  `bulk_ingest_papers.py`,
* the XML response parsers and the esearch parameter assembly of
  `src/services/pubmed/client.py`.

Machine dates are modelled on the proleptic Gregorian calendar used by Python's
`datetime`, with a month index `ym = year * 12 + (month - 1)` and a 1-based day.
-/

set_option autoImplicit false

namespace NebulaNexus

/-! ## Calendar model (Python `datetime` dates, proleptic Gregorian) -/

/-- A calendar date: `ym = year * 12 + (month - 1)`, `day` is 1-based. -/
structure Date where
  ym : Nat
  day : Nat
  deriving DecidableEq, Repr

/-- Gregorian leap-year rule, as implemented by Python's `calendar`/`datetime`. -/
def isLeapYear (y : Nat) : Bool :=
  y % 4 == 0 && (y % 100 != 0 || y % 400 == 0)

/-- Number of days in the month with index `ym` (Gregorian calendar). -/
def daysInMonth (ym : Nat) : Nat :=
  let m := ym % 12 + 1
  if m = 2 then (if isLeapYear (ym / 12) then 29 else 28)
  else if m = 4 ∨ m = 6 ∨ m = 9 ∨ m = 11 then 30
  else 31

/-- Build a date from year, month (1-based), day (1-based). -/
def mkDate (y m d : Nat) : Date :=
  ⟨y * 12 + (m - 1), d⟩

/-- A date that `datetime` would accept: day within the month. -/
def Date.Valid (d : Date) : Prop :=
  1 ≤ d.day ∧ d.day ≤ daysInMonth d.ym

instance (d : Date) : Decidable d.Valid := by
  unfold Date.Valid; infer_instance

/-- Date comparison, as Python compares `datetime` values. -/
def Date.le (a b : Date) : Prop :=
  a.ym < b.ym ∨ (a.ym = b.ym ∧ a.day ≤ b.day)

instance (a b : Date) : Decidable (Date.le a b) := by
  unfold Date.le; infer_instance

/-- Strict date comparison. -/
def Date.lt (a b : Date) : Prop :=
  a.ym < b.ym ∨ (a.ym = b.ym ∧ a.day < b.day)

instance (a b : Date) : Decidable (Date.lt a b) := by
  unfold Date.lt; infer_instance

/-- Python's two-argument `min` on dates. -/
def pyMinDate (a b : Date) : Date :=
  if Date.le a b then a else b

/-- The day after `d` (`d + timedelta(days=1)`), for valid `d`. -/
def nextDay (d : Date) : Date :=
  if d.day < daysInMonth d.ym then ⟨d.ym, d.day + 1⟩ else ⟨d.ym + 1, 1⟩

theorem daysInMonth_pos (ym : Nat) : 28 ≤ daysInMonth ym := by
  unfold daysInMonth
  dsimp only
  split
  · split <;> omega
  · split <;> omega

/-! ## WindowPlanner: `build_month_ranges` (`ingest_arxiv_monthly.py`)

```python
def build_month_ranges(start_date: str, end_date: str) -> list[MonthRange]:
    start_dt = datetime.strptime(start_date, "%Y%m%d").replace(day=1)
    end_dt = datetime.strptime(end_date, "%Y%m%d")
    ranges = []
    current = start_dt
    while current <= end_dt:
        next_month = current + relativedelta(months=1)
        month_end = min(end_dt, next_month - timedelta(days=1))
        ranges.append(MonthRange(start=current, end=month_end))
        current = next_month
    return ranges
```

`current` is always the first day of a month, so `current + relativedelta(months=1)`
is the first day of the next month and `next_month - timedelta(days=1)` is the last
day of `current`'s month.  The loop is embedded with explicit fuel; the fuel value
`end.ym + 1 - start.ym` is exactly the number of iterations the `while` loop runs
(the guard `current <= end_dt` fails precisely when `current.ym > end.ym`). -/

/-- One window of `build_month_ranges`.  The source field `end` is a Lean keyword,
so it is named `stop` here. -/
structure MonthRange where
  start : Date
  stop : Date
  deriving DecidableEq, Repr

/-- The `while current <= end_dt` loop of `build_month_ranges`; `ym` is the month
index of `current` (whose day is always 1). -/
def buildLoop (endDt : Date) : Nat → Nat → List MonthRange
  | 0, _ => []
  | fuel + 1, ym =>
    if Date.le ⟨ym, 1⟩ endDt then
      ⟨⟨ym, 1⟩, pyMinDate endDt ⟨ym, daysInMonth ym⟩⟩ :: buildLoop endDt fuel (ym + 1)
    else []

/-- `build_month_ranges`, on already-parsed dates (`strptime` of the two `YYYYMMDD`
arguments).  `.replace(day=1)` keeps only the month index of `startDate`. -/
def build_month_ranges (startDate endDate : Date) : List MonthRange :=
  buildLoop endDate (endDate.ym + 1 - startDate.ym) startDate.ym

/-- A date is covered by a list of windows if some window contains it. -/
def coveredBy (rs : List MonthRange) (d : Date) : Prop :=
  ∃ r ∈ rs, Date.le r.start d ∧ Date.le d r.stop

instance (rs : List MonthRange) (d : Date) : Decidable (coveredBy rs d) := by
  unfold coveredBy; infer_instance

theorem buildLoop_guard_false {endDt : Date} {ym : Nat} (fuel : Nat)
    (h : ¬ Date.le ⟨ym, 1⟩ endDt) : buildLoop endDt fuel ym = [] := by
  cases fuel with
  | zero => rfl
  | succ n => simp [buildLoop, h]

theorem firstDay_le_iff {ym : Nat} {e : Date} (he : 1 ≤ e.day) :
    Date.le ⟨ym, 1⟩ e ↔ ym ≤ e.ym := by
  unfold Date.le
  dsimp only
  omega

theorem le_pyMinDate_iff (x a b : Date) :
    Date.le x (pyMinDate a b) ↔ (Date.le x a ∧ Date.le x b) := by
  unfold pyMinDate
  split_ifs with h
  · simp only [Date.le] at h ⊢
    omega
  · simp only [Date.le] at h ⊢
    omega

theorem pyMinDate_le_right (a b : Date) : Date.le (pyMinDate a b) b := by
  unfold pyMinDate
  split_ifs with h
  · exact h
  · exact Or.inr ⟨rfl, le_rfl⟩

theorem pyMinDate_eq_right {e : Date} {ym : Nat} (h : ym < e.ym) :
    pyMinDate e ⟨ym, daysInMonth ym⟩ = ⟨ym, daysInMonth ym⟩ := by
  unfold pyMinDate
  rw [if_neg]
  simp only [Date.le]
  omega

theorem nextDay_monthEnd (ym : Nat) : nextDay ⟨ym, daysInMonth ym⟩ = ⟨ym + 1, 1⟩ := by
  simp [nextDay]

theorem coveredBy_cons (r : MonthRange) (rs : List MonthRange) (d : Date) :
    coveredBy (r :: rs) d ↔ ((Date.le r.start d ∧ Date.le d r.stop) ∨ coveredBy rs d) := by
  simp [coveredBy]

/-- Every element of the planner loop's output is a whole-month window, possibly
clipped at `endDt`, for some month index `k` at or after the loop's entry month. -/
theorem mem_buildLoop {e : Date} :
    ∀ {fuel ym : Nat} {r : MonthRange}, r ∈ buildLoop e fuel ym →
      ∃ k, ym ≤ k ∧ Date.le ⟨k, 1⟩ e ∧
        r = ⟨⟨k, 1⟩, pyMinDate e ⟨k, daysInMonth k⟩⟩ := by
  intro fuel
  induction fuel with
  | zero => intro ym r hr; simp [buildLoop] at hr
  | succ n ih =>
    intro ym r hr
    by_cases h : Date.le ⟨ym, 1⟩ e
    · simp only [buildLoop, if_pos h, List.mem_cons] at hr
      rcases hr with rfl | hr
      · exact ⟨ym, le_rfl, h, rfl⟩
      · obtain ⟨k, hk1, hk2, hk3⟩ := ih hr
        exact ⟨k, by omega, hk2, hk3⟩
    · simp only [buildLoop, if_neg h, List.not_mem_nil] at hr

/-- The union of the planner loop's windows is exactly the date interval from the
first day of the entry month to `e`. -/
theorem coveredBy_buildLoop {e : Date} (he : e.Valid) :
    ∀ fuel ym, e.ym + 1 - ym ≤ fuel →
      ∀ d : Date, d.Valid →
        (coveredBy (buildLoop e fuel ym) d ↔ (Date.le ⟨ym, 1⟩ d ∧ Date.le d e)) := by
  intro fuel
  induction fuel with
  | zero =>
    intro ym hfuel d hd
    obtain ⟨he1, he2⟩ := he
    obtain ⟨hd1, hd2⟩ := hd
    simp only [buildLoop, coveredBy, List.not_mem_nil, false_and, exists_false,
      false_iff, not_and]
    intro h1 h2
    simp only [Date.le] at h1 h2
    omega
  | succ n ih =>
    intro ym hfuel d hd
    obtain ⟨he1, he2⟩ := he
    obtain ⟨hd1, hd2⟩ := hd
    by_cases h : Date.le ⟨ym, 1⟩ e
    · simp only [buildLoop, if_pos h]
      rw [coveredBy_cons, ih (ym + 1) (by omega) d ⟨hd1, hd2⟩]
      dsimp only
      rw [le_pyMinDate_iff]
      constructor
      · rintro (⟨h1, h2, _⟩ | ⟨h1, h2⟩)
        · exact ⟨h1, h2⟩
        · refine ⟨?_, h2⟩
          simp only [Date.le] at h1 ⊢
          omega
      · rintro ⟨h1, h2⟩
        by_cases hc : d.ym = ym
        · left
          refine ⟨h1, h2, ?_⟩
          simp only [Date.le]
          right
          exact ⟨hc, by rw [← hc]; exact hd2⟩
        · right
          refine ⟨?_, h2⟩
          simp only [Date.le] at h1 ⊢
          omega
    · rw [buildLoop_guard_false (n + 1) h]
      simp only [coveredBy, List.not_mem_nil, false_and, exists_false, false_iff,
        not_and]
      intro h1 h2
      simp only [Date.le] at h
      simp only [Date.le] at h1 h2
      omega

/-- Consecutive windows of the planner loop are contiguous: the day after one
window's end is the next window's start. -/
theorem chain_buildLoop {e : Date} (he : e.Valid) :
    ∀ fuel ym, e.ym + 1 - ym ≤ fuel →
      List.Chain' (fun r r' : MonthRange => nextDay r.stop = r'.start)
        (buildLoop e fuel ym) := by
  intro fuel
  induction fuel with
  | zero => intro ym hfuel; simp [buildLoop]
  | succ n ih =>
    intro ym hfuel
    by_cases h : Date.le ⟨ym, 1⟩ e
    · simp only [buildLoop, if_pos h]
      have hym : ym ≤ e.ym := (firstDay_le_iff he.1).mp h
      by_cases hlt : ym < e.ym
      · have hg : Date.le ⟨ym + 1, 1⟩ e := (firstDay_le_iff he.1).mpr (by omega)
        cases n with
        | zero => omega
        | succ m =>
          simp only [buildLoop, if_pos hg]
          refine List.Chain'.cons ?_ ?_
          · dsimp only
            rw [pyMinDate_eq_right hlt, nextDay_monthEnd]
          · have := ih (ym + 1) (by omega)
            simpa only [buildLoop, if_pos hg] using this
      · have hstop : ¬ Date.le ⟨ym + 1, 1⟩ e := by
          rw [firstDay_le_iff he.1]; omega
        rw [buildLoop_guard_false n hstop]
        simp
    · rw [buildLoop_guard_false (n + 1) h]
      simp

/-- The planner loop's windows are strictly ordered and pairwise disjoint: each
window ends strictly before every later window starts. -/
theorem pairwise_buildLoop {e : Date} :
    ∀ fuel ym, List.Pairwise (fun r r' : MonthRange => Date.lt r.stop r'.start)
      (buildLoop e fuel ym) := by
  intro fuel
  induction fuel with
  | zero => intro ym; simp [buildLoop]
  | succ n ih =>
    intro ym
    by_cases h : Date.le ⟨ym, 1⟩ e
    · simp only [buildLoop, if_pos h]
      refine List.Pairwise.cons ?_ (ih (ym + 1))
      intro r' hr'
      obtain ⟨k, hk1, _, rfl⟩ := mem_buildLoop hr'
      dsimp only
      have h1 := pyMinDate_le_right e ⟨ym, daysInMonth ym⟩
      simp only [Date.le] at h1
      simp only [Date.lt]
      omega
    · rw [buildLoop_guard_false (n + 1) h]
      simp

/-- The final window of the planner loop is clipped exactly at `e`. -/
theorem getLast_buildLoop {e : Date} (he : e.Valid) :
    ∀ fuel ym, e.ym + 1 - ym ≤ fuel → ym ≤ e.ym →
      (buildLoop e fuel ym).getLast? = some ⟨⟨e.ym, 1⟩, e⟩ := by
  intro fuel
  induction fuel with
  | zero => intro ym hfuel hym; omega
  | succ n ih =>
    intro ym hfuel hym
    have h : Date.le ⟨ym, 1⟩ e := (firstDay_le_iff he.1).mpr hym
    simp only [buildLoop, if_pos h]
    by_cases hlt : ym < e.ym
    · have hg : Date.le ⟨ym + 1, 1⟩ e := (firstDay_le_iff he.1).mpr (by omega)
      cases n with
      | zero => omega
      | succ m =>
        have hrec := ih (ym + 1) (by omega) (by omega)
        simp only [buildLoop, if_pos hg] at hrec ⊢
        rw [List.getLast?_cons_cons]
        exact hrec
    · have hym' : ym = e.ym := by omega
      have hstop : ¬ Date.le ⟨ym + 1, 1⟩ e := by
        rw [firstDay_le_iff he.1]; omega
      rw [buildLoop_guard_false n hstop]
      have hmin : pyMinDate e ⟨e.ym, daysInMonth e.ym⟩ = e := by
        unfold pyMinDate
        rw [if_pos]
        exact Or.inr ⟨rfl, he.2⟩
      simp [hym', hmin]

/-- C2, as stated, is false: `build_month_ranges` snaps the requested start date to
the first day of its month (`.replace(day=1)`), so for the request
`[2023-01-15, 2023-01-20]` the single produced window is `[2023-01-01, 2023-01-20]`:
its union covers `2023-01-01`, a day strictly before the requested start, hence the
union does not equal the requested `[start, end]`. -/
theorem c2_counterexample :
    build_month_ranges (mkDate 2023 1 15) (mkDate 2023 1 20)
        = [⟨mkDate 2023 1 1, mkDate 2023 1 20⟩]
      ∧ coveredBy (build_month_ranges (mkDate 2023 1 15) (mkDate 2023 1 20))
          (mkDate 2023 1 1)
      ∧ ¬ Date.le (mkDate 2023 1 15) (mkDate 2023 1 1) := by
  decide

/-- C2 (amended): for every valid requested range `[start, end]` with
`start ≤ end`, `build_month_ranges` returns an ordered, contiguous,
non-overlapping sequence of windows whose union exactly equals
`[first day of start's month, end]` (not `[start, end]` itself when `start` is not
the first of its month), with the final window clipped to the end date. -/
theorem c2_month_windows (s e : Date) (hs : s.Valid) (he : e.Valid)
    (hse : Date.le s e) :
    (∀ r ∈ build_month_ranges s e, Date.le r.start r.stop)
    ∧ List.Chain' (fun r r' : MonthRange => nextDay r.stop = r'.start)
        (build_month_ranges s e)
    ∧ List.Pairwise (fun r r' : MonthRange => Date.lt r.stop r'.start)
        (build_month_ranges s e)
    ∧ (build_month_ranges s e).getLast? = some ⟨⟨e.ym, 1⟩, e⟩
    ∧ (∀ d : Date, d.Valid →
        (coveredBy (build_month_ranges s e) d
          ↔ (Date.le ⟨s.ym, 1⟩ d ∧ Date.le d e))) := by
  have hsym : s.ym ≤ e.ym := by
    rcases hse with h | ⟨h, _⟩ <;> omega
  refine ⟨?_, ?_, ?_, ?_, ?_⟩
  · intro r hr
    obtain ⟨k, _, hk2, rfl⟩ := mem_buildLoop hr
    dsimp only
    rw [le_pyMinDate_iff]
    refine ⟨hk2, Or.inr ⟨rfl, ?_⟩⟩
    show 1 ≤ daysInMonth k
    have := daysInMonth_pos k
    omega
  · exact chain_buildLoop he _ s.ym le_rfl
  · exact pairwise_buildLoop _ s.ym
  · exact getLast_buildLoop he _ s.ym le_rfl hsym
  · intro d hd
    exact coveredBy_buildLoop he _ s.ym le_rfl d hd

/-- Witness for the amended C2 at a concrete range spanning a leap-year
February. -/
theorem c2_month_windows_witness :
    (mkDate 2024 1 1).Valid ∧ (mkDate 2024 3 10).Valid
    ∧ Date.le (mkDate 2024 1 1) (mkDate 2024 3 10)
    ∧ ((∀ r ∈ build_month_ranges (mkDate 2024 1 1) (mkDate 2024 3 10),
          Date.le r.start r.stop)
      ∧ List.Chain' (fun r r' : MonthRange => nextDay r.stop = r'.start)
          (build_month_ranges (mkDate 2024 1 1) (mkDate 2024 3 10))
      ∧ List.Pairwise (fun r r' : MonthRange => Date.lt r.stop r'.start)
          (build_month_ranges (mkDate 2024 1 1) (mkDate 2024 3 10))
      ∧ (build_month_ranges (mkDate 2024 1 1) (mkDate 2024 3 10)).getLast?
          = some ⟨⟨(mkDate 2024 3 10).ym, 1⟩, mkDate 2024 3 10⟩
      ∧ (∀ d : Date, d.Valid →
          (coveredBy (build_month_ranges (mkDate 2024 1 1) (mkDate 2024 3 10)) d
            ↔ (Date.le ⟨(mkDate 2024 1 1).ym, 1⟩ d
                ∧ Date.le d (mkDate 2024 3 10))))) :=
  ⟨by decide, by decide, by decide,
    c2_month_windows (mkDate 2024 1 1) (mkDate 2024 3 10)
      (by decide) (by decide) (by decide)⟩

/-! ## Publication-date fallback of the storage paths

Both `BulkPaperIngestion.store_papers` (`bulk_ingest_papers.py`) and
`run_paper_ingestion_pipeline` (`airflow/dags/pubmed_ingestion/fetching.py`)
contain the identical block:

```python
pub_date = None
if paper.published_date:
    for fmt in ["%Y-%m-%d", "%Y-%m", "%Y", "%Y %b %d", "%Y %b"]:
        try:
            pub_date = datetime.strptime(paper.published_date, fmt)
            break
        except ValueError:
            continue
if not pub_date:
    pub_date = datetime.now()
```

The five `strptime` formats are embedded below over the character list of the
input.  A format token match follows CPython's `_strptime` patterns: `%Y` is
exactly four digits, `%m` and `%d` are one or two digits in range, `%b` is a
case-insensitive abbreviated English month name; the resulting date must be a
valid calendar date (`datetime` validates the day against the month) and the
whole string must be consumed.  Literal `-`/space separators are matched as
single characters. -/

/-- Numeric value of a digit string (what `int()` computes on the match). -/
def digitsVal (cs : List Char) : Nat :=
  cs.foldl (fun n c => n * 10 + (c.toNat - 48)) 0

/-- All characters are ASCII digits. -/
def allDigits (cs : List Char) : Bool :=
  cs.all Char.isDigit

/-- Split a character list on a separator character (like `str.split(sep)`,
keeping empty parts). -/
def splitOnChar (sep : Char) : List Char → List (List Char)
  | [] => [[]]
  | c :: rest =>
    let r := splitOnChar sep rest
    if c = sep then [] :: r
    else
      match r with
      | h :: t => (c :: h) :: t
      | [] => [[c]]

/-- `%Y`: exactly four digits; `datetime` accepts years `1..9999`. -/
def parseYearTok (cs : List Char) : Option Nat :=
  if cs.length = 4 ∧ allDigits cs = true
      ∧ 1 ≤ digitsVal cs ∧ digitsVal cs ≤ 9999 then
    some (digitsVal cs)
  else none

/-- `%m`: one or two digits, value `1..12`. -/
def parseMonthTok (cs : List Char) : Option Nat :=
  if (cs.length = 1 ∨ cs.length = 2) ∧ allDigits cs = true
      ∧ 1 ≤ digitsVal cs ∧ digitsVal cs ≤ 12 then
    some (digitsVal cs)
  else none

/-- `%d`: one or two digits, value `1..31`. -/
def parseDayTok (cs : List Char) : Option Nat :=
  if (cs.length = 1 ∨ cs.length = 2) ∧ allDigits cs = true
      ∧ 1 ≤ digitsVal cs ∧ digitsVal cs ≤ 31 then
    some (digitsVal cs)
  else none

/-- `%b`: case-insensitive abbreviated month name. -/
def parseMonthAbbrevTok (cs : List Char) : Option Nat :=
  let l := cs.map Char.toLower
  if l = "jan".toList then some 1
  else if l = "feb".toList then some 2
  else if l = "mar".toList then some 3
  else if l = "apr".toList then some 4
  else if l = "may".toList then some 5
  else if l = "jun".toList then some 6
  else if l = "jul".toList then some 7
  else if l = "aug".toList then some 8
  else if l = "sep".toList then some 9
  else if l = "oct".toList then some 10
  else if l = "nov".toList then some 11
  else if l = "dec".toList then some 12
  else none

/-- The `datetime(year, month, day)` constructor: validates the day against the
month length (missing `strptime` fields default to month 1 / day 1). -/
def mkValidDate (y m d : Nat) : Option Date :=
  if 1 ≤ y ∧ y ≤ 9999 ∧ 1 ≤ m ∧ m ≤ 12 ∧ 1 ≤ d
      ∧ d ≤ daysInMonth (y * 12 + (m - 1)) then
    some (mkDate y m d)
  else none

/-- `strptime(s, "%Y-%m-%d")`. -/
def strptimeYmd (cs : List Char) : Option Date :=
  match splitOnChar '-' cs with
  | [y, m, d] =>
    match parseYearTok y, parseMonthTok m, parseDayTok d with
    | some ys, some ms, some ds => mkValidDate ys ms ds
    | _, _, _ => none
  | _ => none

/-- `strptime(s, "%Y-%m")`. -/
def strptimeYm (cs : List Char) : Option Date :=
  match splitOnChar '-' cs with
  | [y, m] =>
    match parseYearTok y, parseMonthTok m with
    | some ys, some ms => mkValidDate ys ms 1
    | _, _ => none
  | _ => none

/-- `strptime(s, "%Y")`. -/
def strptimeY (cs : List Char) : Option Date :=
  match parseYearTok cs with
  | some ys => mkValidDate ys 1 1
  | none => none

/-- `strptime(s, "%Y %b %d")`. -/
def strptimeYbd (cs : List Char) : Option Date :=
  match splitOnChar ' ' cs with
  | [y, b, d] =>
    match parseYearTok y, parseMonthAbbrevTok b, parseDayTok d with
    | some ys, some ms, some ds => mkValidDate ys ms ds
    | _, _, _ => none
  | _ => none

/-- `strptime(s, "%Y %b")`. -/
def strptimeYb (cs : List Char) : Option Date :=
  match splitOnChar ' ' cs with
  | [y, b] =>
    match parseYearTok y, parseMonthAbbrevTok b with
    | some ys, some ms => mkValidDate ys ms 1
    | _, _ => none
  | _ => none

/-- The `for fmt in [...]` loop: try the five accepted formats in their fixed
priority order, keeping the first success. -/
def tryDateFormats (s : String) : Option Date :=
  let cs := s.toList
  (strptimeYmd cs).orElse fun _ =>
    (strptimeYm cs).orElse fun _ =>
      (strptimeY cs).orElse fun _ =>
        (strptimeYbd cs).orElse fun _ =>
          strptimeYb cs

/-- Date stored for a fetched record: the first matching format's value, else
`datetime.now()` (the current wall-clock time, passed here explicitly).  An
empty or missing `published_date` is falsy in Python and also falls through to
`datetime.now()`. -/
def resolve_pub_date (now : Date) (published_date : String) : Date :=
  (if published_date = "" then none else tryDateFormats published_date).getD now

/-- Sanity anchors for the format embedding: each accepted format parses, in the
source's priority order. -/
theorem tryDateFormats_examples :
    tryDateFormats "2023-01-05" = some (mkDate 2023 1 5)
    ∧ tryDateFormats "2023-11" = some (mkDate 2023 11 1)
    ∧ tryDateFormats "2024" = some (mkDate 2024 1 1)
    ∧ tryDateFormats "2023 Nov 7" = some (mkDate 2023 11 7)
    ∧ tryDateFormats "2023 Nov" = some (mkDate 2023 11 1)
    ∧ tryDateFormats "2023-02-29" = none
    ∧ tryDateFormats "2024-02-29" = some (mkDate 2024 2 29) := by
  decide

/-- C1 is violated by the code (and §9 of the spec records the violation as a
defect): when the publication-date string matches none of the accepted formats,
both storage paths silently substitute `datetime.now()` — the record's stored
date is exactly the current wall-clock time, with no unresolved marking. -/
theorem c1_unparseable_date_becomes_wallclock_now :
    tryDateFormats "2023 Winter" = none
    ∧ (∀ now : Date, resolve_pub_date now "2023 Winter" = now)
    ∧ (∀ now : Date, resolve_pub_date now "" = now)
    ∧ resolve_pub_date (mkDate 2026 10 12) "2023 Winter" = mkDate 2026 10 12 := by
  have h : tryDateFormats "2023 Winter" = none := by decide
  refine ⟨h, fun now => ?_, fun now => ?_, by decide⟩
  · unfold resolve_pub_date
    rw [if_neg (by decide), h]
    rfl
  · unfold resolve_pub_date
    rw [if_pos rfl]
    rfl

/-! ## RetryExecutor: `RetryConfig.get_delay` (`src/utils/retry.py`)

```python
def get_delay(self, attempt: int) -> float:
    delay = min(self.initial_delay * (self.exponential_base**attempt), self.max_delay)
    if self.jitter:
        delay = delay * (0.5 + random.random())
    return delay
```

Delays are modelled over `ℚ`; `random.random()` is the explicit parameter
`rand`, with the library guarantee `0 ≤ rand < 1`. -/

/-- Configuration (`RetryConfig.__init__` defaults: `max_attempts=3`,
`initial_delay=0.5`, `max_delay=10.0`, `exponential_base=2.0`, `jitter=True`). -/
structure RetryConfig where
  max_attempts : Nat
  initial_delay : ℚ
  max_delay : ℚ
  exponential_base : ℚ
  jitter : Bool

/-- The delay before the jitter scaling. -/
def RetryConfig.pre_jitter_delay (cfg : RetryConfig) (attempt : Nat) : ℚ :=
  min (cfg.initial_delay * cfg.exponential_base ^ attempt) cfg.max_delay

/-- `RetryConfig.get_delay`, with `random.random()` passed as `rand`. -/
def RetryConfig.get_delay (cfg : RetryConfig) (attempt : Nat) (rand : ℚ) : ℚ :=
  let delay := min (cfg.initial_delay * cfg.exponential_base ^ attempt) cfg.max_delay
  if cfg.jitter then delay * (1/2 + rand) else delay

/-- The default `RetryConfig()`. -/
def defaultRetryConfig : RetryConfig :=
  { max_attempts := 3, initial_delay := 1/2, max_delay := 10,
    exponential_base := 2, jitter := true }

/-- C3, as stated, is false: the jitter factor is `0.5 + random.random()`, which
ranges over `[0.5, 1.5)`, not `[0.5, 1.0]`, and the returned delay can exceed
`max_delay`.  With the default configuration, at attempt 10 and
`random.random() = 0.9`, the pre-jitter delay is capped at `max_delay = 10` but
the returned delay is `10 * 1.4 = 14 > 10`. -/
theorem c3_counterexample :
    defaultRetryConfig.pre_jitter_delay 10 = 10
    ∧ defaultRetryConfig.get_delay 10 (9/10) = 14
    ∧ ¬ defaultRetryConfig.get_delay 10 (9/10) ≤ defaultRetryConfig.max_delay
    ∧ ((0:ℚ) ≤ 9/10 ∧ (9/10:ℚ) < 1)
    ∧ ¬ ((1/2 + 9/10 : ℚ) ≤ 1) := by
  refine ⟨?_, ?_, ?_, ?_, ?_⟩ <;>
    norm_num [RetryConfig.get_delay, RetryConfig.pre_jitter_delay,
      RetryConfig.max_delay, defaultRetryConfig]

/-- C3 (amended): the pre-jitter delay equals
`min(initial_delay * exponential_base^n, max_delay)`, is non-decreasing in `n`
(for a base `≥ 1` and a non-negative initial delay) and never exceeds
`max_delay`; with jitter enabled the returned delay is the pre-jitter delay
scaled by a uniform random factor in `[0.5, 1.5)` (not `[0.5, 1.0]`), so the
returned delay is bounded by `1.5 * max_delay` but can exceed `max_delay`
itself. -/
theorem c3_delay_properties (cfg : RetryConfig) (n : Nat) (rand : ℚ)
    (h0 : 0 ≤ cfg.initial_delay) (h1 : 1 ≤ cfg.exponential_base)
    (hm : 0 ≤ cfg.max_delay) (hr0 : 0 ≤ rand) (hr1 : rand < 1) :
    cfg.pre_jitter_delay n
        = min (cfg.initial_delay * cfg.exponential_base ^ n) cfg.max_delay
    ∧ cfg.pre_jitter_delay n ≤ cfg.pre_jitter_delay (n + 1)
    ∧ cfg.pre_jitter_delay n ≤ cfg.max_delay
    ∧ (cfg.jitter = true →
        cfg.get_delay n rand = cfg.pre_jitter_delay n * (1/2 + rand)
        ∧ 1/2 ≤ 1/2 + rand ∧ 1/2 + rand < 3/2
        ∧ cfg.get_delay n rand ≤ 3/2 * cfg.max_delay)
    ∧ (cfg.jitter = false → cfg.get_delay n rand = cfg.pre_jitter_delay n) := by
  have hpow : cfg.exponential_base ^ n ≤ cfg.exponential_base ^ (n + 1) :=
    pow_le_pow_right₀ h1 (Nat.le_succ n)
  have hpre0 : 0 ≤ cfg.pre_jitter_delay n := by
    unfold RetryConfig.pre_jitter_delay
    have : (0:ℚ) ≤ cfg.initial_delay * cfg.exponential_base ^ n :=
      mul_nonneg h0 (pow_nonneg (by linarith) n)
    exact le_min this hm
  refine ⟨rfl, ?_, min_le_right _ _, ?_, ?_⟩
  · unfold RetryConfig.pre_jitter_delay
    exact min_le_min (mul_le_mul_of_nonneg_left hpow h0) le_rfl
  · intro hj
    have hd : cfg.get_delay n rand = cfg.pre_jitter_delay n * (1/2 + rand) := by
      unfold RetryConfig.get_delay RetryConfig.pre_jitter_delay
      rw [if_pos hj]
    refine ⟨hd, by linarith, by linarith, ?_⟩
    rw [hd]
    calc cfg.pre_jitter_delay n * (1/2 + rand)
        ≤ cfg.pre_jitter_delay n * (3/2) := by
          apply mul_le_mul_of_nonneg_left (by linarith) hpre0
      _ ≤ cfg.max_delay * (3/2) := by
          apply mul_le_mul_of_nonneg_right (min_le_right _ _) (by norm_num)
      _ = 3/2 * cfg.max_delay := by ring
  · intro hj
    unfold RetryConfig.get_delay RetryConfig.pre_jitter_delay
    rw [if_neg (by simp [hj])]

/-- Witness for the amended C3 at the default configuration, attempt 0,
`random.random() = 0`. -/
theorem c3_delay_properties_witness :
    ((0:ℚ) ≤ defaultRetryConfig.initial_delay
      ∧ (1:ℚ) ≤ defaultRetryConfig.exponential_base
      ∧ (0:ℚ) ≤ defaultRetryConfig.max_delay
      ∧ (0:ℚ) ≤ 0 ∧ (0:ℚ) < 1)
    ∧ (defaultRetryConfig.pre_jitter_delay 0
          = min (defaultRetryConfig.initial_delay
                  * defaultRetryConfig.exponential_base ^ 0)
              defaultRetryConfig.max_delay
        ∧ defaultRetryConfig.pre_jitter_delay 0
            ≤ defaultRetryConfig.pre_jitter_delay (0 + 1)
        ∧ defaultRetryConfig.pre_jitter_delay 0 ≤ defaultRetryConfig.max_delay
        ∧ (defaultRetryConfig.jitter = true →
            defaultRetryConfig.get_delay 0 0
              = defaultRetryConfig.pre_jitter_delay 0 * (1/2 + 0)
            ∧ (1:ℚ)/2 ≤ 1/2 + 0 ∧ (1:ℚ)/2 + 0 < 3/2
            ∧ defaultRetryConfig.get_delay 0 0
                ≤ 3/2 * defaultRetryConfig.max_delay)
        ∧ (defaultRetryConfig.jitter = false →
            defaultRetryConfig.get_delay 0 0
              = defaultRetryConfig.pre_jitter_delay 0)) :=
  ⟨⟨by norm_num [defaultRetryConfig], by norm_num [defaultRetryConfig],
    by norm_num [defaultRetryConfig], by norm_num, by norm_num⟩,
    c3_delay_properties defaultRetryConfig 0 0
      (by norm_num [defaultRetryConfig]) (by norm_num [defaultRetryConfig])
      (by norm_num [defaultRetryConfig]) (by norm_num) (by norm_num)⟩

/-! ## WindowIngestor: `process_month` (`ingest_arxiv_monthly.py`)

```python
while current_total + stored_this_month < max_total:
    remaining_global = max_total - (current_total + stored_this_month)
    batch_limit = min(batch_size, remaining_global)
    try:
        result = await metadata_fetcher.fetch_and_process_papers(
            max_results=batch_limit, ..., start=start_index, ...)
    except Exception as exc:
        start_index += batch_size
        continue
    fetched = result.get("papers_fetched", 0)
    stored = result.get("papers_stored", 0)
    fetched_this_month += fetched
    stored_this_month += stored
    if fetched == 0 or fetched < batch_limit:
        break
    start_index += fetched
```

The external call is the oracle `fetch : offset → batch_limit → Option (fetched
× stored)`, with `none` modelling a raised exception.  The loop is embedded with
explicit fuel: a `none` result means the `while` loop has not terminated within
`fuel` iterations; each iteration that issues a batch is recorded in a trace. -/

/-- One loop iteration that issued a batch: the `start_index` and running total
at issue time, the computed `batch_limit`, and the call's outcome (`none` for a
raised exception, `some (fetched, stored)` otherwise). -/
structure RoundLog where
  offset : Nat
  total : Nat
  batchLimit : Nat
  outcome : Option (Nat × Nat)
  deriving DecidableEq

/-- The loop's mutable locals: `fetched_this_month`, `stored_this_month`,
`start_index`. -/
structure MonthState where
  fetched : Nat
  stored : Nat
  startIndex : Nat
  deriving DecidableEq

/-- Result of running the loop: the issued-batch trace and, when the `while`
loop exited within the fuel bound, its totals together with whether it exited
through the `fetched == 0 or fetched < batch_limit` break (the window declared
exhausted) rather than through the global-target guard. -/
structure MonthOutcome where
  trace : List RoundLog
  result : Option (Nat × Nat × Bool)
  deriving DecidableEq

/-- The `while` loop of `process_month`. -/
def process_month (fetch : Nat → Nat → Option (Nat × Nat))
    (batch_size max_total current_total : Nat) :
    Nat → MonthState → MonthOutcome
  | 0, _ => ⟨[], none⟩
  | fuel + 1, s =>
    if current_total + s.stored < max_total then
      let remaining := max_total - (current_total + s.stored)
      let batchLimit := min batch_size remaining
      match fetch s.startIndex batchLimit with
      | none =>
        let o := process_month fetch batch_size max_total current_total fuel
          ⟨s.fetched, s.stored, s.startIndex + batch_size⟩
        ⟨⟨s.startIndex, current_total + s.stored, batchLimit, none⟩ :: o.trace,
          o.result⟩
      | some (f, st) =>
        if f = 0 ∨ f < batchLimit then
          ⟨[⟨s.startIndex, current_total + s.stored, batchLimit, some (f, st)⟩],
            some (s.fetched + f, s.stored + st, true)⟩
        else
          let o := process_month fetch batch_size max_total current_total fuel
            ⟨s.fetched + f, s.stored + st, s.startIndex + f⟩
          ⟨⟨s.startIndex, current_total + s.stored, batchLimit, some (f, st)⟩
              :: o.trace,
            o.result⟩
    else ⟨[], some (s.fetched, s.stored, false)⟩

/-- Oracle for a window holding `r` available records: a fetch at `start` with a
page limit returns `min(limit, r - start)` records, all stored successfully. -/
def availFetch (r : Nat) : Nat → Nat → Option (Nat × Nat) :=
  fun start limit => some (min limit (r - start), min limit (r - start))

/-- Oracle for a persistently failing source: every call raises. -/
def failFetch : Nat → Nat → Option (Nat × Nat) :=
  fun _ _ => none

/-- Unfolding: the loop exits immediately when the global target is reached. -/
theorem process_month_guard_false (fetch : Nat → Nat → Option (Nat × Nat))
    (bs mt ct n : Nat) (s : MonthState) (hg : ¬ ct + s.stored < mt) :
    process_month fetch bs mt ct (n + 1) s
      = ⟨[], some (s.fetched, s.stored, false)⟩ := by
  simp only [process_month, if_neg hg]

/-- Unfolding: a raised iteration advances `start_index` by `batch_size` and
continues. -/
theorem process_month_step_fail (fetch : Nat → Nat → Option (Nat × Nat))
    (bs mt ct n : Nat) (s : MonthState) (hg : ct + s.stored < mt)
    (hf : fetch s.startIndex (min bs (mt - (ct + s.stored))) = none) :
    process_month fetch bs mt ct (n + 1) s
      = ⟨⟨s.startIndex, ct + s.stored, min bs (mt - (ct + s.stored)), none⟩ ::
          (process_month fetch bs mt ct n
            ⟨s.fetched, s.stored, s.startIndex + bs⟩).trace,
         (process_month fetch bs mt ct n
            ⟨s.fetched, s.stored, s.startIndex + bs⟩).result⟩ := by
  simp only [process_month, if_pos hg]
  rw [hf]

/-- Unfolding: a successful iteration with `fetched == 0` or
`fetched < batch_limit` breaks the loop, marking the window exhausted. -/
theorem process_month_step_break (fetch : Nat → Nat → Option (Nat × Nat))
    (bs mt ct n : Nat) (s : MonthState) (f st : Nat) (hg : ct + s.stored < mt)
    (hf : fetch s.startIndex (min bs (mt - (ct + s.stored))) = some (f, st))
    (hb : f = 0 ∨ f < min bs (mt - (ct + s.stored))) :
    process_month fetch bs mt ct (n + 1) s
      = ⟨[⟨s.startIndex, ct + s.stored, min bs (mt - (ct + s.stored)),
            some (f, st)⟩],
         some (s.fetched + f, s.stored + st, true)⟩ := by
  simp only [process_month, if_pos hg]
  rw [hf]
  simp only [if_pos hb]

/-- Unfolding: a successful full iteration advances `start_index` by the number
of records actually fetched and continues. -/
theorem process_month_step_go (fetch : Nat → Nat → Option (Nat × Nat))
    (bs mt ct n : Nat) (s : MonthState) (f st : Nat) (hg : ct + s.stored < mt)
    (hf : fetch s.startIndex (min bs (mt - (ct + s.stored))) = some (f, st))
    (hb : ¬ (f = 0 ∨ f < min bs (mt - (ct + s.stored)))) :
    process_month fetch bs mt ct (n + 1) s
      = ⟨⟨s.startIndex, ct + s.stored, min bs (mt - (ct + s.stored)),
            some (f, st)⟩ ::
          (process_month fetch bs mt ct n
            ⟨s.fetched + f, s.stored + st, s.startIndex + f⟩).trace,
         (process_month fetch bs mt ct n
            ⟨s.fetched + f, s.stored + st, s.startIndex + f⟩).result⟩ := by
  simp only [process_month, if_pos hg]
  rw [hf]
  simp only [if_neg hb]

/-- Every issued batch was issued while the running total was still below the
target: the loop guard is checked before each fetch. -/
theorem process_month_trace_total_lt (fetch : Nat → Nat → Option (Nat × Nat))
    (bs mt ct : Nat) :
    ∀ (fuel : Nat) (s : MonthState) (log : RoundLog),
      log ∈ (process_month fetch bs mt ct fuel s).trace → log.total < mt := by
  intro fuel
  induction fuel with
  | zero => intro s log hlog; simp [process_month] at hlog
  | succ n ih =>
    intro s log hlog
    by_cases hg : ct + s.stored < mt
    · simp only [process_month, if_pos hg] at hlog
      cases hf : fetch s.startIndex (min bs (mt - (ct + s.stored))) with
      | none =>
        rw [hf] at hlog
        simp only [List.mem_cons] at hlog
        rcases hlog with rfl | hlog
        · exact hg
        · exact ih _ _ hlog
      | some p =>
        obtain ⟨f, st⟩ := p
        rw [hf] at hlog
        by_cases hb : f = 0 ∨ f < min bs (mt - (ct + s.stored))
        · simp only [if_pos hb, List.mem_singleton] at hlog
          subst hlog
          exact hg
        · simp only [if_neg hb, List.mem_cons] at hlog
          rcases hlog with rfl | hlog
          · exact hg
          · exact ih _ _ hlog
    · simp only [process_month, if_neg hg] at hlog
      simp at hlog

/-- The first issued batch of a loop run is issued at the entry `start_index`. -/
theorem process_month_trace_head_offset (fetch : Nat → Nat → Option (Nat × Nat))
    (bs mt ct : Nat) :
    ∀ (fuel : Nat) (s : MonthState) (log : RoundLog),
      (process_month fetch bs mt ct fuel s).trace.head? = some log →
        log.offset = s.startIndex := by
  intro fuel s log hlog
  cases fuel with
  | zero => simp [process_month] at hlog
  | succ n =>
    by_cases hg : ct + s.stored < mt
    · simp only [process_month, if_pos hg] at hlog
      cases hf : fetch s.startIndex (min bs (mt - (ct + s.stored))) with
      | none =>
        rw [hf] at hlog
        simp only [List.head?_cons, Option.some_inj] at hlog
        subst hlog
        rfl
      | some p =>
        obtain ⟨f, st⟩ := p
        rw [hf] at hlog
        by_cases hb : f = 0 ∨ f < min bs (mt - (ct + s.stored))
        · simp only [if_pos hb, List.head?_cons, Option.some_inj] at hlog
          subst hlog
          rfl
        · simp only [if_neg hb, List.head?_cons, Option.some_inj] at hlog
          subst hlog
          rfl
    · simp only [process_month, if_neg hg] at hlog
      simp at hlog

/-- The `start_index` for the round after a logged round. -/
def nextOffset (bs : Nat) (log : RoundLog) : Nat :=
  log.offset + (match log.outcome with | some (f, _) => f | none => bs)

/-- Offset bookkeeping: after a successful round the offset advances by the
number of records actually fetched (`start_index += fetched`); after a raised
round it advances by one full `batch_size` (`start_index += batch_size`). -/
theorem process_month_trace_chain (fetch : Nat → Nat → Option (Nat × Nat))
    (bs mt ct : Nat) :
    ∀ (fuel : Nat) (s : MonthState),
      List.Chain' (fun l l' : RoundLog => l'.offset = nextOffset bs l)
        (process_month fetch bs mt ct fuel s).trace := by
  intro fuel
  induction fuel with
  | zero => intro s; simp [process_month]
  | succ n ih =>
    intro s
    by_cases hg : ct + s.stored < mt
    · cases hf : fetch s.startIndex (min bs (mt - (ct + s.stored))) with
      | none =>
        rw [process_month_step_fail fetch bs mt ct n s hg hf]
        dsimp only
        rw [List.chain'_cons']
        refine ⟨?_, ih _⟩
        intro l' hl'
        rw [process_month_trace_head_offset fetch bs mt ct n _ l' hl']
        rfl
      | some p =>
        obtain ⟨f, st⟩ := p
        by_cases hb : f = 0 ∨ f < min bs (mt - (ct + s.stored))
        · rw [process_month_step_break fetch bs mt ct n s f st hg hf hb]
          exact List.chain'_singleton _
        · rw [process_month_step_go fetch bs mt ct n s f st hg hf hb]
          dsimp only
          rw [List.chain'_cons']
          refine ⟨?_, ih _⟩
          intro l' hl'
          rw [process_month_trace_head_offset fetch bs mt ct n _ l' hl']
          rfl
    · rw [process_month_guard_false fetch bs mt ct n s hg]
      exact List.chain'_nil

/-- A completed run with an empty trace exited through the global-target guard,
so it is not marked exhausted. -/
theorem process_month_nil_trace (fetch : Nat → Nat → Option (Nat × Nat))
    (bs mt ct : Nat) (fuel : Nat) (s : MonthState) (fe st : Nat) (ex : Bool)
    (hres : (process_month fetch bs mt ct fuel s).result = some (fe, st, ex))
    (htr : (process_month fetch bs mt ct fuel s).trace = []) : ex = false := by
  cases fuel with
  | zero => simp [process_month] at hres
  | succ n =>
    by_cases hg : ct + s.stored < mt
    · cases hf : fetch s.startIndex (min bs (mt - (ct + s.stored))) with
      | none =>
        rw [process_month_step_fail fetch bs mt ct n s hg hf] at htr
        simp at htr
      | some p =>
        obtain ⟨f, st'⟩ := p
        by_cases hb : f = 0 ∨ f < min bs (mt - (ct + s.stored))
        · rw [process_month_step_break fetch bs mt ct n s f st' hg hf hb] at htr
          simp at htr
        · rw [process_month_step_go fetch bs mt ct n s f st' hg hf hb] at htr
          simp at htr
    · rw [process_month_guard_false fetch bs mt ct n s hg] at hres
      dsimp only at hres
      simp only [Option.some_inj, Prod.mk.injEq] at hres
      exact hres.2.2.symm

/-- A completed run is marked exhausted exactly when its last issued round
returned successfully with `fetched == 0` or `fetched < batch_limit` — the
source's break condition, checked after each successful fetch. -/
theorem process_month_exhausted_iff (fetch : Nat → Nat → Option (Nat × Nat))
    (bs mt ct : Nat) :
    ∀ (fuel : Nat) (s : MonthState) (fe st : Nat) (ex : Bool),
      (process_month fetch bs mt ct fuel s).result = some (fe, st, ex) →
        (ex = true ↔ ∃ log f stg,
          (process_month fetch bs mt ct fuel s).trace.getLast? = some log
          ∧ log.outcome = some (f, stg) ∧ (f = 0 ∨ f < log.batchLimit)) := by
  intro fuel
  induction fuel with
  | zero => intro s fe st ex hres; simp [process_month] at hres
  | succ n ih =>
    intro s fe st ex hres
    by_cases hg : ct + s.stored < mt
    · cases hf : fetch s.startIndex (min bs (mt - (ct + s.stored))) with
      | none =>
        rw [process_month_step_fail fetch bs mt ct n s hg hf] at hres ⊢
        dsimp only at hres ⊢
        cases htr : (process_month fetch bs mt ct n
            ⟨s.fetched, s.stored, s.startIndex + bs⟩).trace with
        | nil =>
          have hex := process_month_nil_trace fetch bs mt ct n _ fe st ex hres htr
          subst hex
          simp only [List.getLast?_singleton, Option.some_inj]
          constructor
          · intro h
            exact absurd h (by decide)
          · rintro ⟨log, f', stg', rfl, hout, -⟩
            simp at hout
        | cons l₁ rest =>
          rw [List.getLast?_cons_cons]
          have hiff := ih _ fe st ex hres
          rw [htr] at hiff
          exact hiff
      | some p =>
        obtain ⟨f, st'⟩ := p
        by_cases hb : f = 0 ∨ f < min bs (mt - (ct + s.stored))
        · rw [process_month_step_break fetch bs mt ct n s f st' hg hf hb]
            at hres ⊢
          dsimp only at hres ⊢
          simp only [Option.some_inj, Prod.mk.injEq] at hres
          obtain ⟨-, -, hex⟩ := hres
          subst hex
          simp only [List.getLast?_singleton, Option.some_inj, true_iff]
          exact ⟨_, f, st', rfl, rfl, hb⟩
        · rw [process_month_step_go fetch bs mt ct n s f st' hg hf hb]
            at hres ⊢
          dsimp only at hres ⊢
          cases htr : (process_month fetch bs mt ct n
              ⟨s.fetched + f, s.stored + st', s.startIndex + f⟩).trace with
          | nil =>
            have hex := process_month_nil_trace fetch bs mt ct n _ fe st ex hres htr
            subst hex
            simp only [List.getLast?_singleton, Option.some_inj]
            constructor
            · intro h
              exact absurd h (by decide)
            · rintro ⟨log, f', stg', rfl, hout, hcond⟩
              simp only [Option.some_inj, Prod.mk.injEq] at hout
              obtain ⟨rfl, -⟩ := hout
              exact absurd hcond hb
          | cons l₁ rest =>
            rw [List.getLast?_cons_cons]
            have hiff := ih _ fe st ex hres
            rw [htr] at hiff
            exact hiff
    · rw [process_month_guard_false fetch bs mt ct n s hg] at hres ⊢
      dsimp only at hres ⊢
      simp only [Option.some_inj, Prod.mk.injEq] at hres
      obtain ⟨-, -, hex⟩ := hres
      subst hex
      simp

/-- Round count under the availability model: from offset `o` in a window with
`r` available records, with no interference from the global cap, the loop
completes, marks the window exhausted, stores every remaining record, and issues
exactly `(r - o) / bs + 1` fetch rounds (one extra zero- or partial-fetch round
discovers exhaustion). -/
theorem process_month_avail (r bs ct : Nat) (hbs : 1 ≤ bs) :
    ∀ (fuel fe st0 o mt : Nat), o ≤ r → ct + st0 + (r - o) + bs ≤ mt →
      (r - o) / bs + 1 ≤ fuel →
      (process_month (availFetch r) bs mt ct fuel ⟨fe, st0, o⟩).result
          = some (fe + (r - o), st0 + (r - o), true)
      ∧ (process_month (availFetch r) bs mt ct fuel ⟨fe, st0, o⟩).trace.length
          = (r - o) / bs + 1 := by
  intro fuel
  induction fuel with
  | zero =>
    intro fe st0 o mt ho hmt hfuel
    exact absurd hfuel (Nat.not_succ_le_zero _)
  | succ n ih =>
    intro fe st0 o mt ho hmt hfuel
    have hg : ct + st0 < mt := by omega
    have hlim : min bs (mt - (ct + st0)) = bs := min_eq_left (by omega)
    have hf : availFetch r o (min bs (mt - (ct + st0)))
        = some (min bs (r - o), min bs (r - o)) := by
      rw [hlim]
      rfl
    by_cases hro : r - o < bs
    · have hmin : min bs (r - o) = r - o := min_eq_right (Nat.le_of_lt hro)
      have hb : min bs (r - o) = 0 ∨ min bs (r - o) < min bs (mt - (ct + st0)) := by
        rw [hmin, hlim]
        omega
      rw [process_month_step_break (availFetch r) bs mt ct n ⟨fe, st0, o⟩ _ _
        hg hf hb]
      have hdiv : (r - o) / bs = 0 := Nat.div_eq_of_lt hro
      refine ⟨?_, by simp [hdiv]⟩
      dsimp only
      rw [hmin]
    · have hfull : min bs (r - o) = bs := min_eq_left (by omega)
      have hb : ¬ (min bs (r - o) = 0
          ∨ min bs (r - o) < min bs (mt - (ct + st0))) := by
        rw [hfull, hlim]
        rintro (h | h) <;> omega
      rw [process_month_step_go (availFetch r) bs mt ct n ⟨fe, st0, o⟩ _ _
        hg hf hb]
      dsimp only
      have hdiv : (r - o) / bs = (r - (o + bs)) / bs + 1 := by
        have h1 := Nat.div_eq_sub_div (by omega : 0 < bs) (by omega : bs ≤ r - o)
        rw [h1]
        congr 2
        omega
      have hfuel' : (r - (o + bs)) / bs + 1 ≤ n := by
        rw [hdiv] at hfuel
        exact Nat.succ_le_succ_iff.mp hfuel
      obtain ⟨ih1, ih2⟩ := ih (fe + bs) (st0 + bs) (o + bs) mt (by omega)
        (by omega) hfuel'
      constructor
      · rw [hfull, ih1]
        have e1 : fe + bs + (r - (o + bs)) = fe + (r - o) := by omega
        have e2 : st0 + bs + (r - (o + bs)) = st0 + (r - o) := by omega
        rw [e1, e2]
      · rw [List.length_cons, hfull, ih2, hdiv]

/-- C4 is half-true but its termination half is violated by the code: a caught
error does advance the offset by one full `batch_size` and continue, but there
is no cap on consecutive failed iterations.  When every iteration raises (the
oracle `failFetch`) and the target has not been reached, the loop guard never
becomes false: for EVERY fuel bound the loop is still running (`result = none`)
and has issued one failing batch per iteration, contradicting the spec's
mandated repeated-failure cap (and the source comment's stated intent to
"avoid infinite loops"). -/
theorem c4_unbounded_failure_loop (bs mt ct : Nat) (h : ct < mt) :
    ∀ (fuel fe si : Nat),
      (process_month failFetch bs mt ct fuel ⟨fe, 0, si⟩).result = none
      ∧ (process_month failFetch bs mt ct fuel ⟨fe, 0, si⟩).trace.length = fuel := by
  intro fuel
  induction fuel with
  | zero => intro fe si; exact ⟨rfl, rfl⟩
  | succ n ih =>
    intro fe si
    have hg : ct + 0 < mt := by omega
    have hfl : failFetch si (min bs (mt - (ct + 0))) = none := rfl
    rw [process_month_step_fail failFetch bs mt ct n ⟨fe, 0, si⟩ hg hfl]
    dsimp only
    obtain ⟨ih1, ih2⟩ := ih fe (si + bs)
    exact ⟨ih1, by rw [List.length_cons, ih2]⟩

/-- Witness for C4's failing input: with `batch_size = 100`, target 10, initial
total 0, even after 5 iterations the all-failing loop has not terminated and
has issued 5 skipped batches. -/
theorem c4_unbounded_failure_loop_witness :
    (0 : Nat) < 10
    ∧ ((process_month failFetch 100 10 0 5 ⟨0, 0, 0⟩).result = none
      ∧ (process_month failFetch 100 10 0 5 ⟨0, 0, 0⟩).trace.length = 5) :=
  ⟨by decide, c4_unbounded_failure_loop 100 10 0 (by decide) 5 0 0⟩

/-- C5: the loop guard `current_total + stored_this_month < max_total` is
re-checked before every fetch, so no batch is ever issued once the running
total has reached the target; and in the spec's example run
(`targetCount = 250`, `batchSize = 100`, `initialTotal = 0`, ample available
records) exactly 3 batches are issued with limits 100, 100, 50 and the run
stops at exactly 250 stored records. -/
theorem c5_global_stop_condition :
    (∀ (fetch : Nat → Nat → Option (Nat × Nat)) (bs mt ct fuel : Nat)
        (s : MonthState) (log : RoundLog),
      log ∈ (process_month fetch bs mt ct fuel s).trace → log.total < mt)
    ∧ (process_month (availFetch 1000) 100 250 0 10 ⟨0, 0, 0⟩).trace.map
        RoundLog.batchLimit = [100, 100, 50]
    ∧ (process_month (availFetch 1000) 100 250 0 10 ⟨0, 0, 0⟩).trace.map
        RoundLog.outcome = [some (100, 100), some (100, 100), some (50, 50)]
    ∧ (process_month (availFetch 1000) 100 250 0 10 ⟨0, 0, 0⟩).result
        = some (250, 250, false) :=
  ⟨process_month_trace_total_lt, by decide, by decide, by decide⟩

/-- Witness for C5 at the first issued batch of the example run. -/
theorem c5_global_stop_condition_witness :
    ((⟨0, 0, 100, some (100, 100)⟩ : RoundLog)
        ∈ (process_month (availFetch 1000) 100 250 0 10 ⟨0, 0, 0⟩).trace)
    ∧ (⟨0, 0, 100, some (100, 100)⟩ : RoundLog).total < 250 :=
  ⟨by decide,
    c5_global_stop_condition.1 (availFetch 1000) 100 250 0 10 ⟨0, 0, 0⟩
      ⟨0, 0, 100, some (100, 100)⟩ (by decide)⟩

/-- C6's round bound, as stated, is false: when the batch size divides the number
of available records the loop needs one extra successful zero-fetch round to
discover exhaustion.  With `R = 200` available records and `B = 100`, the loop
performs 3 successful fetch rounds, exceeding `ceil(R/B) = 2`. -/
theorem c6_counterexample :
    (process_month (availFetch 200) 100 100000 0 10 ⟨0, 0, 0⟩).trace.length = 3
    ∧ (∀ log ∈ (process_month (availFetch 200) 100 100000 0 10 ⟨0, 0, 0⟩).trace,
        log.outcome.isSome = true)
    ∧ (200 + 100 - 1) / 100 = 2 := by
  decide

/-- C6 (amended): per-window pagination with batch size `B ≥ 1` over a window
holding `R` available records terminates in exactly `R / B + 1` successful fetch
rounds — at most `ceil(R/B) + 1`, one more than the claimed `ceil(R/B)` when
`B` divides `R` — marking the window exhausted; the loop declares exhaustion
exactly when a round returns `fetched == 0` or `fetched < batchLimit`, and
otherwise advances the pagination offset by the number of records actually
fetched (and by `batch_size` after a raised round). -/
theorem c6_pagination_bound (r bs ct mt fe st0 fuel : Nat) (hbs : 1 ≤ bs)
    (hmt : ct + st0 + r + bs ≤ mt) (hfuel : r / bs + 1 ≤ fuel) :
    (∀ (fetch : Nat → Nat → Option (Nat × Nat)) (bs' mt' ct' fuel' : Nat)
        (s : MonthState),
      List.Chain' (fun l l' : RoundLog => l'.offset = nextOffset bs' l)
        (process_month fetch bs' mt' ct' fuel' s).trace)
    ∧ (∀ (fetch : Nat → Nat → Option (Nat × Nat)) (bs' mt' ct' fuel' : Nat)
        (s : MonthState) (fe' st' : Nat) (ex : Bool),
      (process_month fetch bs' mt' ct' fuel' s).result = some (fe', st', ex) →
        (ex = true ↔ ∃ log f stg,
          (process_month fetch bs' mt' ct' fuel' s).trace.getLast? = some log
          ∧ log.outcome = some (f, stg) ∧ (f = 0 ∨ f < log.batchLimit)))
    ∧ (process_month (availFetch r) bs mt ct fuel ⟨fe, st0, 0⟩).result
        = some (fe + r, st0 + r, true)
    ∧ (process_month (availFetch r) bs mt ct fuel ⟨fe, st0, 0⟩).trace.length
        = r / bs + 1
    ∧ r / bs + 1 ≤ (r + bs - 1) / bs + 1 := by
  have hav := process_month_avail r bs ct hbs fuel fe st0 0 mt (Nat.zero_le r)
    (by simpa using hmt) (by simpa using hfuel)
  refine ⟨process_month_trace_chain, process_month_exhausted_iff, ?_, ?_, ?_⟩
  · have h1 := hav.1
    simpa using h1
  · have h2 := hav.2
    simpa using h2
  · have h3 : r / bs ≤ (r + bs - 1) / bs :=
      Nat.div_le_div_right (by omega)
    omega

/-- Witness for the amended C6 at `R = 250`, `B = 100`: 3 successful rounds. -/
theorem c6_pagination_bound_witness :
    ((1 : Nat) ≤ 100 ∧ (0 : Nat) + 0 + 250 + 100 ≤ 1000
      ∧ 250 / 100 + 1 ≤ 10)
    ∧ ((∀ (fetch : Nat → Nat → Option (Nat × Nat)) (bs' mt' ct' fuel' : Nat)
          (s : MonthState),
        List.Chain' (fun l l' : RoundLog => l'.offset = nextOffset bs' l)
          (process_month fetch bs' mt' ct' fuel' s).trace)
      ∧ (∀ (fetch : Nat → Nat → Option (Nat × Nat)) (bs' mt' ct' fuel' : Nat)
          (s : MonthState) (fe' st' : Nat) (ex : Bool),
        (process_month fetch bs' mt' ct' fuel' s).result = some (fe', st', ex) →
          (ex = true ↔ ∃ log f stg,
            (process_month fetch bs' mt' ct' fuel' s).trace.getLast? = some log
            ∧ log.outcome = some (f, stg) ∧ (f = 0 ∨ f < log.batchLimit)))
      ∧ (process_month (availFetch 250) 100 1000 0 10 ⟨0, 0, 0⟩).result
          = some (0 + 250, 0 + 250, true)
      ∧ (process_month (availFetch 250) 100 1000 0 10 ⟨0, 0, 0⟩).trace.length
          = 250 / 100 + 1
      ∧ 250 / 100 + 1 ≤ (250 + 100 - 1) / 100 + 1) :=
  ⟨⟨by decide, by decide, by decide⟩,
    c6_pagination_bound 250 100 0 1000 0 0 10 (by decide) (by decide) (by decide)⟩

/-! ## DedupUpsertStore: `PaperRepository.upsert` (`src/repositories/paper.py`)

```python
def upsert(self, paper_create):
    existing_paper = None
    if hasattr(paper_create, 'pmid') and paper_create.pmid:
        existing_paper = self.get_by_pmid(paper_create.pmid)
    if not existing_paper and hasattr(paper_create, 'arxiv_id') and paper_create.arxiv_id:
        existing_paper = self.get_by_arxiv_id(paper_create.arxiv_id)
    if existing_paper:
        for key, value in paper_create.model_dump(exclude_unset=True).items():
            setattr(existing_paper, key, value)
        return self.update(existing_paper)
    else:
        return self.create(paper_create)
```

The table is a list of rows in insertion order; a `SELECT ... WHERE key = v`
scalar is the first matching row.  A missing attribute (`hasattr` false) or a
`None` value is `none`; an empty string is falsy like `None`.  With every field
set on the create model, the in-place update overwrites the matched row with
the new record's fields; the non-key content fields (title, authors, abstract,
journal, ...) are collapsed into `payload`. -/

/-- A paper record as stored/upserted (key fields plus collapsed content). -/
structure PaperCreate where
  pmid : Option String
  arxiv_id : Option String
  published_date : Date
  payload : String
  deriving DecidableEq

/-- The papers table: rows in insertion order. -/
abbrev PaperDB := List PaperCreate

/-- Python truthiness of an optional string attribute. -/
def truthyOpt : Option String → Bool
  | none => false
  | some s => !(s == "")

/-- Index of the first row satisfying a predicate (the `SELECT`'s first match). -/
def find_first (pred : PaperCreate → Bool) : PaperDB → Option Nat
  | [] => none
  | row :: rest =>
    if pred row then some 0
    else (find_first pred rest).map (· + 1)

/-- Row predicate of `get_by_pmid`. -/
def pmidMatches (p : String) (row : PaperCreate) : Bool :=
  row.pmid == some p

/-- Row predicate of `get_by_arxiv_id`. -/
def arxivMatches (a : String) (row : PaperCreate) : Bool :=
  row.arxiv_id == some a

/-- `get_by_pmid`, returning the matched row's index. -/
def find_by_pmid (db : PaperDB) (p : String) : Option Nat :=
  find_first (pmidMatches p) db

/-- `get_by_arxiv_id`, returning the matched row's index. -/
def find_by_arxiv_id (db : PaperDB) (a : String) : Option Nat :=
  find_first (arxivMatches a) db

/-- Outcome classification of an upsert. -/
inductive UpsertKind where
  | inserted
  | updated
  deriving DecidableEq

/-- The row `upsert` updates, if any: the primary key (pmid) is tried first,
the secondary key (arxiv_id) only if that produced no row. -/
def lookupExisting (db : PaperDB) (r : PaperCreate) : Option Nat :=
  let byPmid : Option Nat :=
    match r.pmid with
    | some p => if p = "" then none else find_by_pmid db p
    | none => none
  match byPmid with
  | some i => some i
  | none =>
    match r.arxiv_id with
    | some a => if a = "" then none else find_by_arxiv_id db a
    | none => none

/-- `PaperRepository.upsert`. -/
def upsert (db : PaperDB) (r : PaperCreate) : PaperDB × UpsertKind :=
  match lookupExisting db r with
  | some i => (db.set i r, UpsertKind.updated)
  | none => (db ++ [r], UpsertKind.inserted)

theorem find_first_lt_length (pred : PaperCreate → Bool) :
    ∀ (db : PaperDB) (i : Nat), find_first pred db = some i → i < db.length := by
  intro db
  induction db with
  | nil => intro i h; simp [find_first] at h
  | cons row rest ih =>
    intro i h
    by_cases hp : pred row
    · simp only [find_first, if_pos hp, Option.some_inj] at h
      subst h
      simp
    · simp only [find_first, if_neg hp, Option.map_eq_some'] at h
      obtain ⟨j, hj, rfl⟩ := h
      have := ih j hj
      simp
      omega

theorem find_first_set_self (pred : PaperCreate → Bool) (r : PaperCreate)
    (hr : pred r = true) :
    ∀ (db : PaperDB) (i : Nat), find_first pred db = some i →
      find_first pred (db.set i r) = some i := by
  intro db
  induction db with
  | nil => intro i h; simp [find_first] at h
  | cons row rest ih =>
    intro i h
    by_cases hp : pred row
    · simp only [find_first, if_pos hp, Option.some_inj] at h
      subst h
      simp [List.set, find_first, hr]
    · simp only [find_first, if_neg hp, Option.map_eq_some'] at h
      obtain ⟨j, hj, rfl⟩ := h
      simp only [List.set, find_first, if_neg hp]
      rw [ih j hj]
      rfl

theorem find_first_none_set (pred : PaperCreate → Bool) (r : PaperCreate)
    (hr : pred r = true) :
    ∀ (db : PaperDB) (j : Nat), find_first pred db = none → j < db.length →
      find_first pred (db.set j r) = some j := by
  intro db
  induction db with
  | nil => intro j _ hj; simp at hj
  | cons row rest ih =>
    intro j hnone hj
    by_cases hp : pred row
    · simp [find_first, if_pos hp] at hnone
    · simp only [find_first, if_neg hp, Option.map_eq_none'] at hnone
      cases j with
      | zero => simp [List.set, find_first, hr]
      | succ k =>
        simp only [List.set, find_first, if_neg hp]
        rw [ih k hnone (by simpa using hj)]
        rfl

theorem find_first_none_append (pred : PaperCreate → Bool) (r : PaperCreate)
    (hr : pred r = true) :
    ∀ db : PaperDB, find_first pred db = none →
      find_first pred (db ++ [r]) = some db.length := by
  intro db
  induction db with
  | nil => intro _; simp [find_first, hr]
  | cons row rest ih =>
    intro hnone
    by_cases hp : pred row
    · simp [find_first, if_pos hp] at hnone
    · simp only [find_first, if_neg hp, Option.map_eq_none'] at hnone
      have hsplit : (row :: rest) ++ [r] = row :: (rest ++ [r]) := rfl
      rw [hsplit]
      simp only [find_first, if_neg hp]
      rw [ih hnone]
      rfl

theorem set_append_length (db : PaperDB) (r r' : PaperCreate) :
    (db ++ [r]).set db.length r' = db ++ [r'] := by
  induction db with
  | nil => rfl
  | cons h t ih => simp [List.set, ih]

theorem lookupExisting_nil (r : PaperCreate) : lookupExisting [] r = none := by
  rcases hp : r.pmid with _ | p <;> rcases ha : r.arxiv_id with _ | a <;>
    simp [lookupExisting, hp, ha, find_by_pmid, find_by_arxiv_id, find_first]

/-- After one upsert of a truthy-keyed record, the same record is found again
(at a stable index) and re-writing it there changes nothing. -/
theorem lookupExisting_after (db : PaperDB) (r : PaperCreate)
    (hkey : truthyOpt r.pmid = true ∨ truthyOpt r.arxiv_id = true) :
    ∃ i, lookupExisting (upsert db r).1 r = some i
      ∧ (upsert db r).1.set i r = (upsert db r).1 := by
  rcases hpm : r.pmid with _ | p
  case none =>
    have harx : truthyOpt r.arxiv_id = true := by
      rcases hkey with h | h
      · rw [hpm] at h; simp [truthyOpt] at h
      · exact h
    rcases ham : r.arxiv_id with _ | a
    · rw [ham] at harx; simp [truthyOpt] at harx
    have ha : ¬ a = "" := by
      rw [ham] at harx; simpa [truthyOpt] using harx
    have hpred : arxivMatches a r = true := by
      simp [arxivMatches, ham]
    cases hfind : find_by_arxiv_id db a with
    | some j =>
      have hl : lookupExisting db r = some j := by
        simp [lookupExisting, hpm, ham, if_neg ha, hfind]
      have hup : (upsert db r).1 = db.set j r := by
        simp [upsert, hl]
      refine ⟨j, ?_, ?_⟩
      · rw [hup]
        have : find_by_arxiv_id (db.set j r) a = some j :=
          find_first_set_self _ r hpred db j hfind
        simp [lookupExisting, hpm, ham, if_neg ha, this]
      · rw [hup, List.set_set]
    | none =>
      have hl : lookupExisting db r = none := by
        simp [lookupExisting, hpm, ham, if_neg ha, hfind]
      have hup : (upsert db r).1 = db ++ [r] := by
        simp [upsert, hl]
      refine ⟨db.length, ?_, ?_⟩
      · rw [hup]
        have : find_by_arxiv_id (db ++ [r]) a = some db.length :=
          find_first_none_append _ r hpred db hfind
        simp [lookupExisting, hpm, ham, if_neg ha, this]
      · rw [hup, set_append_length]
  case some =>
    by_cases hp : p = ""
    · subst hp
      have harx : truthyOpt r.arxiv_id = true := by
        rcases hkey with h | h
        · rw [hpm] at h; simp [truthyOpt] at h
        · exact h
      rcases ham : r.arxiv_id with _ | a
      · rw [ham] at harx; simp [truthyOpt] at harx
      have ha : ¬ a = "" := by
        rw [ham] at harx; simpa [truthyOpt] using harx
      have hpred : arxivMatches a r = true := by
        simp [arxivMatches, ham]
      cases hfind : find_by_arxiv_id db a with
      | some j =>
        have hl : lookupExisting db r = some j := by
          simp [lookupExisting, hpm, ham, if_neg ha, hfind]
        have hup : (upsert db r).1 = db.set j r := by
          simp [upsert, hl]
        refine ⟨j, ?_, ?_⟩
        · rw [hup]
          have : find_by_arxiv_id (db.set j r) a = some j :=
            find_first_set_self _ r hpred db j hfind
          simp [lookupExisting, hpm, ham, if_neg ha, this]
        · rw [hup, List.set_set]
      | none =>
        have hl : lookupExisting db r = none := by
          simp [lookupExisting, hpm, ham, if_neg ha, hfind]
        have hup : (upsert db r).1 = db ++ [r] := by
          simp [upsert, hl]
        refine ⟨db.length, ?_, ?_⟩
        · rw [hup]
          have : find_by_arxiv_id (db ++ [r]) a = some db.length :=
            find_first_none_append _ r hpred db hfind
          simp [lookupExisting, hpm, ham, if_neg ha, this]
        · rw [hup, set_append_length]
    · have hpred : pmidMatches p r = true := by
        simp [pmidMatches, hpm]
      cases hfind : find_by_pmid db p with
      | some i =>
        have hl : lookupExisting db r = some i := by
          simp [lookupExisting, hpm, if_neg hp, hfind]
        have hup : (upsert db r).1 = db.set i r := by
          simp [upsert, hl]
        refine ⟨i, ?_, ?_⟩
        · rw [hup]
          have : find_by_pmid (db.set i r) p = some i :=
            find_first_set_self _ r hpred db i hfind
          simp [lookupExisting, hpm, if_neg hp, this]
        · rw [hup, List.set_set]
      | none =>
        rcases ham : r.arxiv_id with _ | a
        · have hl : lookupExisting db r = none := by
            simp [lookupExisting, hpm, if_neg hp, hfind, ham]
          have hup : (upsert db r).1 = db ++ [r] := by
            simp [upsert, hl]
          refine ⟨db.length, ?_, ?_⟩
          · rw [hup]
            have : find_by_pmid (db ++ [r]) p = some db.length :=
              find_first_none_append _ r hpred db hfind
            simp [lookupExisting, hpm, if_neg hp, this]
          · rw [hup, set_append_length]
        · by_cases ha : a = ""
          · subst ha
            have hl : lookupExisting db r = none := by
              simp [lookupExisting, hpm, if_neg hp, hfind, ham]
            have hup : (upsert db r).1 = db ++ [r] := by
              simp [upsert, hl]
            refine ⟨db.length, ?_, ?_⟩
            · rw [hup]
              have : find_by_pmid (db ++ [r]) p = some db.length :=
                find_first_none_append _ r hpred db hfind
              simp [lookupExisting, hpm, if_neg hp, this]
            · rw [hup, set_append_length]
          · cases hfa : find_by_arxiv_id db a with
            | some j =>
              have hl : lookupExisting db r = some j := by
                simp [lookupExisting, hpm, if_neg hp, hfind, ham, if_neg ha, hfa]
              have hup : (upsert db r).1 = db.set j r := by
                simp [upsert, hl]
              refine ⟨j, ?_, ?_⟩
              · rw [hup]
                have hjlt : j < db.length := find_first_lt_length _ db j hfa
                have : find_by_pmid (db.set j r) p = some j :=
                  find_first_none_set _ r hpred db j hfind hjlt
                simp [lookupExisting, hpm, if_neg hp, this]
              · rw [hup, List.set_set]
            | none =>
              have hl : lookupExisting db r = none := by
                simp [lookupExisting, hpm, if_neg hp, hfind, ham, if_neg ha, hfa]
              have hup : (upsert db r).1 = db ++ [r] := by
                simp [upsert, hl]
              refine ⟨db.length, ?_, ?_⟩
              · rw [hup]
                have : find_by_pmid (db ++ [r]) p = some db.length :=
                  find_first_none_append _ r hpred db hfind
                simp [lookupExisting, hpm, if_neg hp, this]
              · rw [hup, set_append_length]

/-- C7: `upsert` tries the primary natural key (pmid) first and the secondary
key (arxiv_id) only when the pmid lookup produced no row; a match under either
key updates the existing row in place with the new record's fields, otherwise a
new row is inserted; consequently upsert is idempotent — a second invocation
with an identical (truthy-keyed) record leaves the table unchanged and is
classified `updated`, and from an empty table two identical upserts produce
exactly one stored row. -/
theorem c7_upsert_precedence_and_idempotence :
    (∀ (db : PaperDB) (r : PaperCreate) (p : String) (i : Nat),
      r.pmid = some p → ¬ p = "" → find_by_pmid db p = some i →
        upsert db r = (db.set i r, UpsertKind.updated))
    ∧ (∀ (db : PaperDB) (r : PaperCreate) (a : String) (j : Nat),
      (truthyOpt r.pmid = false
        ∨ ∃ p, r.pmid = some p ∧ find_by_pmid db p = none) →
      r.arxiv_id = some a → ¬ a = "" → find_by_arxiv_id db a = some j →
        upsert db r = (db.set j r, UpsertKind.updated))
    ∧ (∀ (db : PaperDB) (r : PaperCreate),
      lookupExisting db r = none →
        upsert db r = (db ++ [r], UpsertKind.inserted))
    ∧ (∀ (db : PaperDB) (r : PaperCreate),
      truthyOpt r.pmid = true ∨ truthyOpt r.arxiv_id = true →
        upsert (upsert db r).1 r = ((upsert db r).1, UpsertKind.updated))
    ∧ (∀ r : PaperCreate,
      truthyOpt r.pmid = true ∨ truthyOpt r.arxiv_id = true →
        (upsert (upsert ([] : PaperDB) r).1 r).1 = [r]) := by
  have hd : ∀ (db : PaperDB) (r : PaperCreate),
      truthyOpt r.pmid = true ∨ truthyOpt r.arxiv_id = true →
        upsert (upsert db r).1 r = ((upsert db r).1, UpsertKind.updated) := by
    intro db r hkey
    obtain ⟨i, hl, hset⟩ := lookupExisting_after db r hkey
    rw [upsert, hl]
    change (List.set (upsert db r).1 i r, UpsertKind.updated) = _
    rw [hset]
  refine ⟨?_, ?_, ?_, hd, ?_⟩
  · intro db r p i h1 h2 h3
    simp [upsert, lookupExisting, h1, if_neg h2, h3]
  · intro db r a j hbp h1 h2 h3
    have hbyPmid : (match r.pmid with
        | some p => if p = "" then none else find_by_pmid db p
        | none => none) = (none : Option Nat) := by
      rcases hbp with hfalse | ⟨p, hp, hnone⟩
      · rcases hpm : r.pmid with _ | q
        · rfl
        · rw [hpm] at hfalse
          have hq : q = "" := by simpa [truthyOpt] using hfalse
          simp [hq]
      · rw [hp]
        by_cases hpe : p = ""
        · simp [hpe]
        · simp [if_neg hpe, hnone]
    simp [upsert, lookupExisting, hbyPmid, h1, if_neg h2, h3]
  · intro db r h
    simp [upsert, h]
  · intro r hkey
    obtain ⟨i, hl, hset⟩ := lookupExisting_after [] r hkey
    rw [upsert, hl]
    change List.set (upsert [] r).1 i r = [r]
    rw [hset, upsert, lookupExisting_nil]
    rfl

/-- Witness for C7 at a concrete pmid-keyed record, starting from an empty
table: the second identical upsert is classified `updated` and leaves the
single stored row unchanged. -/
theorem c7_upsert_precedence_and_idempotence_witness :
    (truthyOpt (some "12345") = true ∨ truthyOpt (none : Option String) = true)
    ∧ (upsert
        (upsert ([] : PaperDB)
          ⟨some "12345", none, mkDate 2020 1 1, "content"⟩).1
        ⟨some "12345", none, mkDate 2020 1 1, "content"⟩
      = ((upsert ([] : PaperDB)
          ⟨some "12345", none, mkDate 2020 1 1, "content"⟩).1,
        UpsertKind.updated)) :=
  ⟨Or.inl (by decide),
    c7_upsert_precedence_and_idempotence.2.2.2.1 []
      ⟨some "12345", none, mkDate 2020 1 1, "content"⟩ (Or.inl (by decide))⟩

/-! ## Run-scoped dedup: `BulkPaperIngestion.store_papers` / `run_ingestion`
(`bulk_ingest_papers.py`)

```python
for paper in papers:                      # store_papers
    if paper.pmid in self.processed_pmids:
        continue
    ... parse publication date ...
    paper_create = PaperCreate(pmid=paper.pmid, ...)
    existing = repo.get_by_pmid(paper.pmid)
    if existing: updated += 1
    else: stored += 1
    repo.upsert(paper_create)
    self.processed_pmids.add(paper.pmid)
```

```python
for query_idx, query in enumerate(search_queries, 1):   # run_ingestion
    if current_count >= self.target_count: break
    papers = await self.fetch_papers_batch(query=query, ...)
    self.stats['papers_fetched'] += len(papers)
    if not papers: continue
    for i in range(0, len(papers), self.batch_size):
        batch = papers[i:i + self.batch_size]
        stored, updated, failed = self.store_papers(batch)
        ...
        current_count = self.get_current_paper_count()
        if current_count >= self.target_count: break
```

The external fetch is an oracle: `query_results` lists, per query, the papers
the `fetch_papers_batch` call returns.  The run-scoped dedup set
`processed_pmids` is consulted only inside `store_papers`; no pmid filter is
applied before or during a fetch.  `upsert_calls` instruments the pmids for
which `repo.upsert` was actually invoked.  Storage exceptions
(`papers_failed`) are not modelled: every upsert succeeds. -/

/-- The fields of a fetched `PubMedPaper` that `store_papers` reads (content
fields other than the date collapsed into `payload`). -/
structure FetchedPaper where
  pmid : String
  published_date : String
  payload : String
  deriving DecidableEq

/-- The mutable state threaded through `store_papers` calls of one run. -/
structure IngestState where
  db : PaperDB
  processed_pmids : List String
  stored : Nat
  updated : Nat
  upsert_calls : List String
  deriving DecidableEq

/-- One iteration of the `for paper in papers` loop of `store_papers`. -/
def store_one (now : Date) (st : IngestState) (paper : FetchedPaper) :
    IngestState :=
  if paper.pmid ∈ st.processed_pmids then st
  else
    let pc : PaperCreate :=
      { pmid := some paper.pmid, arxiv_id := none,
        published_date := resolve_pub_date now paper.published_date,
        payload := paper.payload }
    let existing := find_by_pmid st.db paper.pmid
    { db := (upsert st.db pc).1,
      processed_pmids := paper.pmid :: st.processed_pmids,
      stored := match existing with | some _ => st.stored | none => st.stored + 1,
      updated := match existing with | some _ => st.updated + 1 | none => st.updated,
      upsert_calls := paper.pmid :: st.upsert_calls }

/-- `BulkPaperIngestion.store_papers` on one batch. -/
def store_papers (now : Date) (st : IngestState) (papers : List FetchedPaper) :
    IngestState :=
  papers.foldl (store_one now) st

/-- Number of stored rows carrying pmid `q`. -/
def countRows (db : PaperDB) (q : String) : Nat :=
  db.countP (pmidMatches q)

theorem find_first_some_get (pred : PaperCreate → Bool) :
    ∀ (db : PaperDB) (i : Nat), find_first pred db = some i →
      ∃ old, db.get? i = some old ∧ pred old = true := by
  intro db
  induction db with
  | nil => intro i h; simp [find_first] at h
  | cons row rest ih =>
    intro i h
    by_cases hp : pred row
    · simp only [find_first, if_pos hp, Option.some_inj] at h
      subst h
      exact ⟨row, rfl, hp⟩
    · simp only [find_first, if_neg hp, Option.map_eq_some'] at h
      obtain ⟨j, hj, rfl⟩ := h
      obtain ⟨old, hget, hpred⟩ := ih j hj
      exact ⟨old, hget, hpred⟩

theorem find_first_none_countP (pred : PaperCreate → Bool) :
    ∀ db : PaperDB, find_first pred db = none → db.countP pred = 0 := by
  intro db
  induction db with
  | nil => intro _; simp
  | cons row rest ih =>
    intro h
    by_cases hp : pred row
    · simp [find_first, if_pos hp] at h
    · simp only [find_first, if_neg hp, Option.map_eq_none'] at h
      simp [List.countP_cons, hp, ih h]

theorem countP_set_of_same (f : PaperCreate → Bool) (new : PaperCreate) :
    ∀ (db : PaperDB) (i : Nat),
      (∀ old, db.get? i = some old → f old = f new) →
      (db.set i new).countP f = db.countP f := by
  intro db
  induction db with
  | nil => intro i _; rfl
  | cons row rest ih =>
    intro i h
    cases i with
    | zero =>
      have := h row rfl
      simp [List.set, List.countP_cons, this]
    | succ k =>
      simp only [List.set, List.countP_cons]
      rw [ih k (fun old hold => h old (by simpa using hold))]

/-- One pmid-keyed upsert keeps per-pmid row counts at most one. -/
theorem countRows_upsert_le (db : PaperDB) (pc : PaperCreate) (p : String)
    (hpm : pc.pmid = some p) (hp : ¬ p = "") (harx : pc.arxiv_id = none)
    (hdb : ∀ q, countRows db q ≤ 1) :
    ∀ q, countRows (upsert db pc).1 q ≤ 1 := by
  intro q
  have hlook : lookupExisting db pc
      = find_by_pmid db p := by
    simp only [lookupExisting, hpm, if_neg hp, harx]
    cases find_by_pmid db p <;> rfl
  cases hfind : find_by_pmid db p with
  | some i =>
    have hup : (upsert db pc).1 = db.set i pc := by
      simp [upsert, hlook, hfind]
    rw [hup]
    obtain ⟨old, hget, hpred⟩ := find_first_some_get (pmidMatches p) db i hfind
    have hold_pmid : old.pmid = some p := by
      simpa [pmidMatches] using hpred
    have hsame : ∀ o, db.get? i = some o → pmidMatches q o = pmidMatches q pc := by
      intro o ho
      rw [hget] at ho
      injection ho with ho
      subst ho
      simp [pmidMatches, hold_pmid, hpm]
    unfold countRows
    rw [countP_set_of_same _ _ db i hsame]
    exact hdb q
  | none =>
    have hup : (upsert db pc).1 = db ++ [pc] := by
      simp [upsert, hlook, hfind]
    rw [hup]
    unfold countRows
    rw [List.countP_append]
    by_cases hq : q = p
    · subst hq
      have h0 : db.countP (pmidMatches q) = 0 :=
        find_first_none_countP _ db hfind
      simp [h0, List.countP_cons, pmidMatches, hpm]
    · have hno : pmidMatches q pc = false := by
        simp [pmidMatches, hpm]
        intro h
        exact absurd h.symm hq
      simp [List.countP_cons, hno]
      exact hdb q

theorem store_one_calls_invariant (now : Date) (st : IngestState)
    (paper : FetchedPaper)
    (h1 : ∀ c ∈ st.upsert_calls, c ∈ st.processed_pmids)
    (h2 : st.upsert_calls.Nodup) :
    (store_one now st paper).upsert_calls.Nodup
    ∧ ∀ c ∈ (store_one now st paper).upsert_calls,
        c ∈ (store_one now st paper).processed_pmids := by
  unfold store_one
  by_cases hmem : paper.pmid ∈ st.processed_pmids
  · rw [if_pos hmem]
    exact ⟨h2, h1⟩
  · rw [if_neg hmem]
    dsimp only
    refine ⟨?_, ?_⟩
    · rw [List.nodup_cons]
      exact ⟨fun hc => hmem (h1 _ hc), h2⟩
    · intro c hc
      rw [List.mem_cons] at hc ⊢
      rcases hc with rfl | hc
      · exact Or.inl rfl
      · exact Or.inr (h1 c hc)

theorem store_papers_calls_invariant (now : Date) :
    ∀ (papers : List FetchedPaper) (st : IngestState),
      (∀ c ∈ st.upsert_calls, c ∈ st.processed_pmids) → st.upsert_calls.Nodup →
        ((store_papers now st papers).upsert_calls.Nodup
          ∧ ∀ c ∈ (store_papers now st papers).upsert_calls,
              c ∈ (store_papers now st papers).processed_pmids) := by
  intro papers
  induction papers with
  | nil => intro st h1 h2; exact ⟨h2, h1⟩
  | cons paper rest ih =>
    intro st h1 h2
    have hone := store_one_calls_invariant now st paper h1 h2
    exact ih (store_one now st paper) hone.2 hone.1

theorem store_papers_count_invariant (now : Date) :
    ∀ (papers : List FetchedPaper) (st : IngestState),
      (∀ q, countRows st.db q ≤ 1) → (∀ x ∈ papers, ¬ x.pmid = "") →
        ∀ q, countRows (store_papers now st papers).db q ≤ 1 := by
  intro papers
  induction papers with
  | nil => intro st h1 _; exact h1
  | cons paper rest ih =>
    intro st h1 h2
    have hone : ∀ q, countRows (store_one now st paper).db q ≤ 1 := by
      unfold store_one
      by_cases hmem : paper.pmid ∈ st.processed_pmids
      · rw [if_pos hmem]
        exact h1
      · rw [if_neg hmem]
        dsimp only
        exact countRows_upsert_le st.db _ paper.pmid rfl
          (h2 paper (List.mem_cons_self _ _)) rfl h1
    exact ih (store_one now st paper) hone (fun x hx => h2 x (List.mem_cons_of_mem _ hx))

/-- Split a fetched result list into `batch_size`-sized chunks
(`papers[i:i + batch_size]` for `i in range(0, len(papers), batch_size)`). -/
def chunksGo (n : Nat) : Nat → List FetchedPaper → List (List FetchedPaper)
  | 0, _ => []
  | _ + 1, [] => []
  | fuel + 1, a :: rest => (a :: rest).take n :: chunksGo n fuel ((a :: rest).drop n)

/-- All chunks of a fetched result list. -/
def chunks (n : Nat) (l : List FetchedPaper) : List (List FetchedPaper) :=
  chunksGo n l.length l

/-- The inner batch loop body of `run_ingestion`: skip once the target was
reached (`break`), otherwise store the batch and re-read the stored count. -/
def store_batches (now : Date) (target : Nat)
    (acc : IngestState × Bool) (batch : List FetchedPaper) :
    IngestState × Bool :=
  if acc.2 then acc
  else
    let st' := store_papers now acc.1 batch
    (st', decide (target ≤ st'.db.length))

/-- The outer query loop body of `run_ingestion`: `acc` is (state,
`stats['papers_fetched']`, outer-break flag); `papers` is what the fetch call
for this query returned. -/
def run_query (now : Date) (target batch_size : Nat)
    (acc : IngestState × Nat × Bool) (papers : List FetchedPaper) :
    IngestState × Nat × Bool :=
  if acc.2.2 then acc
  else if target ≤ acc.1.db.length then (acc.1, acc.2.1, true)
  else
    let n' := acc.2.1 + papers.length
    if papers = [] then (acc.1, n', false)
    else
      let r := (chunks batch_size papers).foldl (store_batches now target)
        (acc.1, false)
      (r.1, n', false)

/-- `BulkPaperIngestion.run_ingestion`, returning the final state and
`stats['papers_fetched']`. -/
def run_ingestion (now : Date) (target batch_size : Nat)
    (query_results : List (List FetchedPaper)) (st0 : IngestState) :
    IngestState × Nat :=
  let r := query_results.foldl (run_query now target batch_size) (st0, 0, false)
  (r.1, r.2.1)

/-- C8's fetch half is false: the run-scoped dedup set is consulted only inside
`store_papers`, after fetching; when two queries both return the record with
pmid `"111"`, the record is retrieved from the source twice
(`papers_fetched = 2`) — no dedup happens before or during the second fetch —
even though it is stored only once. -/
theorem c8_counterexample :
    (run_ingestion (mkDate 2026 1 1) 1000 100
        [[⟨"111", "2023-01-05", "x"⟩], [⟨"111", "2023-01-05", "x"⟩]]
        ⟨[], [], 0, 0, []⟩).2 = 2
    ∧ (run_ingestion (mkDate 2026 1 1) 1000 100
        [[⟨"111", "2023-01-05", "x"⟩], [⟨"111", "2023-01-05", "x"⟩]]
        ⟨[], [], 0, 0, []⟩).1.db.length = 1
    ∧ (run_ingestion (mkDate 2026 1 1) 1000 100
        [[⟨"111", "2023-01-05", "x"⟩], [⟨"111", "2023-01-05", "x"⟩]]
        ⟨[], [], 0, 0, []⟩).1.stored = 1
    ∧ (run_ingestion (mkDate 2026 1 1) 1000 100
        [[⟨"111", "2023-01-05", "x"⟩], [⟨"111", "2023-01-05", "x"⟩]]
        ⟨[], [], 0, 0, []⟩).1.upsert_calls = ["111"] := by
  decide

/-- C8 (amended): the run-scoped dedup set guarantees a natural key is never
STORED twice within a run — an already-processed pmid is skipped before the
store call, the pmids actually upserted are pairwise distinct, the second
occurrence of a record in a later batch is a complete no-op, and per-pmid row
counts stay at most one; it does not prevent the redundant fetch itself. -/
theorem c8_store_dedup (now : Date) :
    (∀ (st : IngestState) (paper : FetchedPaper),
      paper.pmid ∈ st.processed_pmids → store_one now st paper = st)
    ∧ (∀ (papers : List FetchedPaper) (st : IngestState),
        (∀ c ∈ st.upsert_calls, c ∈ st.processed_pmids) →
          st.upsert_calls.Nodup →
          ((store_papers now st papers).upsert_calls.Nodup
            ∧ ∀ c ∈ (store_papers now st papers).upsert_calls,
                c ∈ (store_papers now st papers).processed_pmids))
    ∧ (∀ (papers : List FetchedPaper) (st : IngestState),
        (∀ q, countRows st.db q ≤ 1) → (∀ x ∈ papers, ¬ x.pmid = "") →
          ∀ q, countRows (store_papers now st papers).db q ≤ 1)
    ∧ (∀ (st : IngestState) (papers : List FetchedPaper),
        (∀ x ∈ papers, x.pmid ∈ st.processed_pmids) →
          store_papers now st papers = st) := by
  refine ⟨?_, store_papers_calls_invariant now, store_papers_count_invariant now, ?_⟩
  · intro st paper hmem
    unfold store_one
    rw [if_pos hmem]
  · intro st papers
    induction papers generalizing st with
    | nil => intro _; rfl
    | cons paper rest ih =>
      intro h
      have hskip : store_one now st paper = st := by
        unfold store_one
        rw [if_pos (h paper (List.mem_cons_self _ _))]
      show store_papers now (store_one now st paper) rest = st
      rw [hskip]
      exact ih st (fun x hx => h x (List.mem_cons_of_mem _ hx))

/-- Witness for the amended C8: one batch processed from a fresh run state,
then the same batch again — the upserted pmids are duplicate-free and the
repeat batch is a no-op. -/
theorem c8_store_dedup_witness :
    ((∀ c ∈ ([] : List String), c ∈ ([] : List String))
      ∧ ([] : List String).Nodup)
    ∧ ((store_papers (mkDate 2026 1 1) ⟨[], [], 0, 0, []⟩
          [⟨"111", "2023-01-05", "x"⟩]).upsert_calls.Nodup
      ∧ ∀ c ∈ (store_papers (mkDate 2026 1 1) ⟨[], [], 0, 0, []⟩
          [⟨"111", "2023-01-05", "x"⟩]).upsert_calls,
            c ∈ (store_papers (mkDate 2026 1 1) ⟨[], [], 0, 0, []⟩
              [⟨"111", "2023-01-05", "x"⟩]).processed_pmids) :=
  ⟨⟨fun c hc => hc, List.nodup_nil⟩,
    (c8_store_dedup (mkDate 2026 1 1)).2.1 [⟨"111", "2023-01-05", "x"⟩]
      ⟨[], [], 0, 0, []⟩ (fun c hc => by simp at hc) List.nodup_nil⟩

/-! ## MetadataSourceClient: XML response parsing
(`src/services/pubmed/client.py`)

An `xml.etree.ElementTree` element is a tag, attributes, optional text and
child elements.  `ET.fromstring` is the collaborator boundary: a response is
either a malformed document (`Except.error`, the `ET.ParseError` case) or a
parsed tree.  `_parse_esearch_response` and `_parse_efetch_response` re-raise
envelope-level failures as `PubMedParseError`; `_parse_pubmed_article` returns
`None` for a malformed entry (missing `MedlineCitation`, missing/empty `PMID`,
missing `Article`), and `_parse_efetch_response` drops such entries while
keeping the rest of the batch. -/

/-- An `ElementTree` element. -/
inductive Xml where
  | elem (tag : String) (attrs : List (String × String)) (text : Option String)
      (children : List Xml)

/-- Tag of an element. -/
def Xml.tag : Xml → String
  | .elem t _ _ _ => t

/-- Attributes of an element. -/
def Xml.attrs : Xml → List (String × String)
  | .elem _ a _ _ => a

/-- Text of an element (`element.text`, `None` when absent). -/
def Xml.text : Xml → Option String
  | .elem _ _ tx _ => tx

/-- Child elements. -/
def Xml.children : Xml → List Xml
  | .elem _ _ _ c => c

/-- `element.get(name)`: first attribute with the given name. -/
def Xml.attr (x : Xml) (name : String) : Option String :=
  (x.attrs.find? (fun kv => kv.1 == name)).map (fun kv => kv.2)

/-- `element.find(tag)` for a simple tag: first direct child with that tag. -/
def findChild (x : Xml) (t : String) : Option Xml :=
  x.children.find? (fun c => c.tag == t)

/-- `element.findall(tag)` for a simple tag: all direct children with it. -/
def findChildren (x : Xml) (t : String) : List Xml :=
  x.children.filter (fun c => c.tag == t)

/-- `element.findall("A/B/...")`: all elements reached by the path, in document
order. -/
def findAllPath (x : Xml) (path : List String) : List Xml :=
  path.foldl (fun acc t => acc.flatMap (fun e => findChildren e t)) [x]

/-- `element.find("A/B/...")`: first element matching the path. -/
def findPath (x : Xml) (path : List String) : Option Xml :=
  (findAllPath x path).head?

/-- Matching descendants of the given elements, in document (pre-)order. -/
def descListTagged (t : String) : List Xml → List Xml
  | [] => []
  | Xml.elem tg a tx ch :: rest =>
    (if tg = t then [Xml.elem tg a tx ch] else [])
      ++ descListTagged t ch ++ descListTagged t rest

/-- `root.findall(".//Tag")`: all descendants of `root` with the tag. -/
def findAllDescendants (x : Xml) (t : String) : List Xml :=
  descListTagged t x.children

/-- Text of an element when present and non-empty (Python truthiness of
`elem.text`). -/
def truthyText (x : Xml) : Option String :=
  match x.text with
  | some s => if s = "" then none else some s
  | none => none

/-- `elem.text if elem is not None and elem.text else ""`. -/
def textOrEmpty (x : Option Xml) : String :=
  match x with
  | some e =>
    match truthyText e with
    | some s => s
    | none => ""
  | none => ""

/-- The client's parse-failure exception (`PubMedParseError`). -/
inductive PubMedError where
  | parseError (msg : String)
  deriving DecidableEq

/-- `PubMedClient._parse_esearch_response`. -/
def parse_esearch_response (resp : Except String Xml) :
    Except PubMedError (List String) :=
  match resp with
  | .error e => .error (.parseError e)
  | .ok root =>
    match findChild root "IdList" with
    | none => .ok []
    | some idList => .ok ((findChildren idList "Id").filterMap truthyText)

/-- `PubMedClient._extract_pub_date`. -/
def extract_pub_date (pubDateElem : Option Xml) : String :=
  match pubDateElem with
  | none => ""
  | some pd =>
    let year := findChild pd "Year"
    let month := findChild pd "Month"
    let day := findChild pd "Day"
    let medlineHit : Option String :=
      match year with
      | none =>
        match findChild pd "MedlineDate" with
        | some md => truthyText md
        | none => none
      | some _ => none
    match medlineHit with
    | some s => s
    | none =>
      let parts := (match year with
          | some y => (truthyText y).toList
          | none => [])
        ++ (match month with
          | some m => (truthyText m).toList
          | none => [])
        ++ (match day with
          | some d => (truthyText d).toList
          | none => [])
      if parts = [] then "" else String.intercalate "-" parts

/-- A parsed `PubMedPaper`. -/
structure PubMedPaperM where
  pmid : String
  title : String
  abstract : String
  authors : List String
  journal : String
  published_date : String
  doi : String
  pmc_id : String
  mesh_terms : List String
  publication_types : List String
  full_text_url : String
  deriving DecidableEq

/-- First `ArticleId` child of the id list with the given `IdType` and truthy
text, returning its text (the doi/pmc extraction loops). -/
def firstArticleId (articleIdList : Option Xml) (idType : String) : String :=
  match articleIdList with
  | none => ""
  | some idl =>
    match (findChildren idl "ArticleId").find? (fun aid =>
        aid.attr "IdType" == some idType && (truthyText aid).isSome) with
    | some aid =>
      match truthyText aid with
      | some s => s
      | none => ""
    | none => ""

/-- `PubMedClient._parse_pubmed_article`. -/
def parse_pubmed_article (article : Xml) : Option PubMedPaperM :=
  match findChild article "MedlineCitation" with
  | none => none
  | some mc =>
    match (match findChild mc "PMID" with
        | some e => truthyText e
        | none => none) with
    | none => none
    | some pmid =>
      match findChild mc "Article" with
      | none => none
      | some art =>
        let title := textOrEmpty (findChild art "ArticleTitle")
        let abstract :=
          match findPath art ["Abstract", "AbstractText"] with
          | none => ""
          | some ae =>
            let parts := findAllPath art ["Abstract", "AbstractText"]
            if 1 < parts.length then
              String.intercalate " " (parts.map (fun part =>
                let label := match part.attr "Label" with
                  | some l => l
                  | none => ""
                let txt := match part.text with
                  | some t => t
                  | none => ""
                if label = "" then txt else label ++ ": " ++ txt))
            else
              match ae.text with
              | some t => t
              | none => ""
        let authors :=
          match findChild art "AuthorList" with
          | none => []
          | some al =>
            (findChildren al "Author").filterMap (fun author =>
              match findChild author "LastName" with
              | none => none
              | some ln =>
                match truthyText ln with
                | none => none
                | some lnt =>
                  some (match findChild author "ForeName" with
                    | some fn =>
                      match truthyText fn with
                      | some fnt => fnt ++ " " ++ lnt
                      | none => lnt
                    | none => lnt))
        let journal := textOrEmpty (findPath art ["Journal", "Title"])
        let pub_date :=
          extract_pub_date (findPath art ["Journal", "JournalIssue", "PubDate"])
        let article_id_list := findPath article ["PubmedData", "ArticleIdList"]
        let doi := firstArticleId article_id_list "doi"
        let pmc_id := firstArticleId article_id_list "pmc"
        let mesh_terms :=
          match findChild mc "MeshHeadingList" with
          | none => []
          | some ml =>
            (findChildren ml "MeshHeading").filterMap (fun mh =>
              match findChild mh "DescriptorName" with
              | some d => truthyText d
              | none => none)
        let publication_types :=
          match findChild art "PublicationTypeList" with
          | none => []
          | some ptl => (findChildren ptl "PublicationType").filterMap truthyText
        let full_text_url :=
          if pmc_id = "" then ""
          else "https://www.ncbi.nlm.nih.gov/pmc/articles/" ++ pmc_id ++ "/"
        some
          { pmid := pmid, title := title, abstract := abstract,
            authors := authors, journal := journal,
            published_date := pub_date, doi := doi, pmc_id := pmc_id,
            mesh_terms := mesh_terms, publication_types := publication_types,
            full_text_url := full_text_url }

/-- `PubMedClient._parse_efetch_response`. -/
def parse_efetch_response (resp : Except String Xml) :
    Except PubMedError (List PubMedPaperM) :=
  match resp with
  | .error e => .error (.parseError e)
  | .ok root =>
    .ok ((findAllDescendants root "PubmedArticle").filterMap parse_pubmed_article)

/-- A well-formed `PubmedArticle` entry with just a PMID and a title. -/
def sampleArticle (pmid title : String) : Xml :=
  .elem "PubmedArticle" [] none
    [.elem "MedlineCitation" [] none
      [.elem "PMID" [] (some pmid) [],
       .elem "Article" [] none [.elem "ArticleTitle" [] (some title) []]]]

/-- A malformed `PubmedArticle` entry: its citation carries no PMID. -/
def sampleBadArticle : Xml :=
  .elem "PubmedArticle" [] none [.elem "MedlineCitation" [] none []]

/-- A structurally valid EFetch batch of three entries whose middle entry is
malformed. -/
def sampleBatch : Xml :=
  .elem "PubmedArticleSet" [] none
    [sampleArticle "1" "A", sampleBadArticle, sampleArticle "3" "C"]

/-- The paper parsed from `sampleArticle`. -/
def samplePaper (pmid title : String) : PubMedPaperM :=
  { pmid := pmid, title := title, abstract := "", authors := [], journal := "",
    published_date := "", doi := "", pmc_id := "", mesh_terms := [],
    publication_types := [], full_text_url := "" }

theorem sampleBatch_articles :
    findAllDescendants sampleBatch "PubmedArticle"
      = [sampleArticle "1" "A", sampleBadArticle, sampleArticle "3" "C"] := by
  simp [findAllDescendants, sampleBatch, sampleArticle, sampleBadArticle,
    descListTagged, Xml.children]

/-- C9: a malformed top-level envelope (a raised `ET.ParseError`) makes both
response parsers raise `PubMedParseError` — a hard error for that call; a
structurally valid search envelope with zero identifiers parses to the empty
identifier list, not an error; and a malformed individual article inside an
otherwise valid fetch batch is dropped while the remaining records parse
normally. -/
theorem c9_parse_error_policy :
    (∀ e, parse_esearch_response (.error e) = .error (.parseError e))
    ∧ (∀ e, parse_efetch_response (.error e) = .error (.parseError e))
    ∧ (∀ root, findChild root "IdList" = none →
        parse_esearch_response (.ok root) = .ok [])
    ∧ (∀ root idl, findChild root "IdList" = some idl →
        findChildren idl "Id" = [] →
          parse_esearch_response (.ok root) = .ok [])
    ∧ (∀ root, parse_efetch_response (.ok root)
        = .ok ((findAllDescendants root "PubmedArticle").filterMap
            parse_pubmed_article))
    ∧ (∀ root, ((findAllDescendants root "PubmedArticle").filterMap
          parse_pubmed_article).length
        ≤ (findAllDescendants root "PubmedArticle").length)
    ∧ parse_pubmed_article sampleBadArticle = none
    ∧ (findAllDescendants sampleBatch "PubmedArticle").length = 3
    ∧ parse_efetch_response (.ok sampleBatch)
        = .ok [samplePaper "1" "A", samplePaper "3" "C"] := by
  refine ⟨fun e => rfl, fun e => rfl, ?_, ?_, fun root => rfl, ?_, rfl, ?_, ?_⟩
  · intro root h
    simp [parse_esearch_response, h]
  · intro root idl h1 h2
    simp [parse_esearch_response, h1, h2]
  · intro root
    exact List.length_filterMap_le _ _
  · rw [sampleBatch_articles]
    rfl
  · show Except.ok
        ((findAllDescendants sampleBatch "PubmedArticle").filterMap
          parse_pubmed_article)
      = Except.ok [samplePaper "1" "A", samplePaper "3" "C"]
    rw [sampleBatch_articles]
    rfl

/-- Witness for C9's zero-identifier case: an envelope with no `IdList` parses
to the empty result. -/
theorem c9_parse_error_policy_witness :
    findChild (Xml.elem "eSearchResult" [] none []) "IdList" = none
    ∧ parse_esearch_response (.ok (Xml.elem "eSearchResult" [] none []))
        = .ok [] :=
  ⟨rfl, c9_parse_error_policy.2.2.1 (Xml.elem "eSearchResult" [] none []) rfl⟩

/-! ## `PubMedClient.search_papers` request assembly
(`src/services/pubmed/client.py`)

```python
if max_results is None:
    max_results = self.max_results
if query is None:
    query = self.search_term
params = self._build_params({
    "db": "pubmed",
    "term": query,
    "retmax": min(max_results, 10000),
    "retstart": start,
    "sort": sort,
    "retmode": "xml",
})
if min_date:
    params["mindate"] = min_date
if max_date:
    params["maxdate"] = max_date
```
-/

/-- The ESearch query parameters `search_papers` sends (the identification
parameters added by `_build_params` are not modelled). -/
structure EsearchRequest where
  db : String
  term : String
  retmax : Nat
  retstart : Nat
  sort : String
  retmode : String
  mindate : Option String
  maxdate : Option String
  deriving DecidableEq

/-- The parameter assembly of `PubMedClient.search_papers`. -/
def search_papers_request (settings_max_results : Nat)
    (settings_search_term : String) (query : Option String)
    (max_results : Option Nat) (start : Nat) (sort : String)
    (min_date max_date : Option String) : EsearchRequest :=
  let mr := match max_results with
    | none => settings_max_results
    | some m => m
  let q := match query with
    | none => settings_search_term
    | some s => s
  { db := "pubmed", term := q, retmax := min mr 10000, retstart := start,
    sort := sort, retmode := "xml",
    mindate := match min_date with
      | some s => if s = "" then none else some s
      | none => none,
    maxdate := match max_date with
      | some s => if s = "" then none else some s
      | none => none }

/-- C10: the `retmax` actually sent equals `min(effective max_results, 10000)`;
a single search page is silently capped at 10,000 identifiers, with no error
signalled for larger requests. -/
theorem c10_retmax_capped (settings_max : Nat) (term0 : String)
    (query : Option String) (max_results : Option Nat) (start : Nat)
    (sort : String) (minD maxD : Option String) :
    (search_papers_request settings_max term0 query max_results start sort
        minD maxD).retmax
      = min (match max_results with
          | none => settings_max
          | some m => m) 10000
    ∧ (search_papers_request settings_max term0 query max_results start sort
        minD maxD).retmax ≤ 10000
    ∧ (∀ m, max_results = some m → 10000 < m →
        (search_papers_request settings_max term0 query max_results start sort
          minD maxD).retmax = 10000) := by
  refine ⟨rfl, min_le_right _ _, ?_⟩
  intro m hm hlt
  simp only [search_papers_request, hm]
  exact min_eq_right (by omega)

/-- Witness for C10: a caller requesting 25,000 identifiers is silently capped
at 10,000. -/
theorem c10_retmax_capped_witness :
    (search_papers_request 100 "medical" none (some 25000) 0 "relevance"
        none none).retmax = 10000 :=
  (c10_retmax_capped 100 "medical" none (some 25000) 0 "relevance"
      none none).2.2 25000 rfl (by omega)

end NebulaNexus
